import Mathlib

/-!
go-smtp-source: a verification development over `main.go`.

The program is a small SMTP load generator.  This file embeds its functions
(`Parse`, `Dial`, `Client.SendMail`, `main`, `Launch`, `Kick`, `Worker`) in
Lean and proves properties of them.

Modelling conventions
* Go `int` values are `Int`.  The only arithmetic the program performs on them
  is `i++` below a bound and `i % 80`, so no wrap-around can occur.
* Go `error` values are strings; `nil` is `none`.
* The SMTP client library (`net/smtp`) is an external collaborator.  It is
  represented by a `Server`: a function giving, for the transcript so far and
  the next command, the error the library call returns (`none` for `nil`).
* Every operation performed on a connection is appended to a transcript
  (`Client.log`), so that order and number of commands can be stated.
* Goroutines and channels are represented by a step relation (`next`) on a
  state holding the program position of every goroutine and the content of the
  `done` channel buffer.
-/

namespace SmtpSource

/-! ## Package level variables and `Config` -/

/-- A Go `error` value. -/
abbrev Err := String

/-- Package variable `myhostname`. -/
def myhostname : String := "localhost"

/-- Package variable `defaultSender`. -/
def defaultSender : String := "from@example.com"

/-- Package variable `defaultRecipient`. -/
def defaultRecipient : String := "to@example.com"

/-- Package variable `defaultSubject`. -/
def defaultSubject : String := "from go-smtp-source"

/-- The two package variables that are read from the operating system at
start-up: `myDate` is kept in the form in which the program uses it, the text
`myDate.Format(time.RFC1123)`; `myPid` is `os.Getpid()`, a non-negative
number. -/
structure Process where
  myDate : String
  myPid : Nat
deriving DecidableEq, Repr

/-- Type `tls.Config`, of which the program sets one field. -/
structure TlsConfig where
  InsecureSkipVerify : Bool
deriving DecidableEq, Repr

/-- Type `Config` of `main.go`. -/
structure Config where
  Host : String
  Sender : String
  Recipient : String
  MessageCount : Int
  Sessions : Int
  MessageSize : Int
  UseTLS : Bool
  DontDisc : Bool
  tlsConfig : TlsConfig
deriving DecidableEq, Repr

/-! ## `Parse` -/

/-- What package `flag` hands to the program after `flag.Parse()`: for every
flag the value given on the command line (`none` when the flag is absent), and
the positional arguments. -/
structure CommandLine where
  m : Option Int
  l : Option Int
  s : Option Int
  f : Option String
  t : Option String
  tls : Option Bool
  d : Option Bool
  args : List String
deriving DecidableEq, Repr

/-- The functions `flag.Int`, `flag.String` and `flag.Bool` followed by
`flag.Parse`: the given value, or the default. -/
def flagValue {α : Type} (given : Option α) (dflt : α) : α :=
  match given with
  | some v => v
  | none => dflt

/-- The function `flag.Arg`: the i-th positional argument, or the empty
string. -/
def flagArg (args : List String) (i : Nat) : String :=
  match args.get? i with
  | some a => a
  | none => ""

/-- Function `Parse`.  `Except.error code` stands for `os.Exit(code)`;
otherwise the configuration stored in the package variable `config` is
returned. -/
def Parse (cl : CommandLine) : Except Nat Config :=
  let msgcount := flagValue cl.m 1
  let msgsize := flagValue cl.l 0
  let session := flagValue cl.s 1
  let sender := flagValue cl.f defaultSender
  let recipient := flagValue cl.t defaultRecipient
  let usetls := flagValue cl.tls false
  let dontdisc := flagValue cl.d false
  let host := flagArg cl.args 0
  if host = "" then
    Except.error 1
  else
    Except.ok
      { Host := host
        Sender := sender
        Recipient := recipient
        MessageCount := msgcount
        MessageSize := msgsize
        Sessions := session
        UseTLS := usetls
        DontDisc := dontdisc
        tlsConfig := { InsecureSkipVerify := true } }

/-! ## Formatting verbs of package `fmt` used by the program -/

/-- Lower-case hexadecimal digits of a natural number, most significant first,
as `fmt` produces them: at least one digit, no leading zero otherwise. -/
def hexDigits (u : Nat) : List Char :=
  if u < 16 then [Nat.digitChar u] else hexDigits (u / 16) ++ [Nat.digitChar (u % 16)]
termination_by u
decreasing_by omega

/-- The verb `%04x` applied to an `int`: with the `0` flag the width becomes
the minimal number of digits, one less when a sign is printed. -/
def fmtHex04 (v : Int) : String :=
  let digits := hexDigits v.natAbs
  if v < 0 then
    String.mk ('-' :: (List.replicate (3 - digits.length) '0' ++ digits))
  else
    String.mk (List.replicate (4 - digits.length) '0' ++ digits)

/-- The verb `%d` applied to an `int`. -/
def fmtDec (v : Int) : String := toString v

/-! ## The connection and its transcript -/

/-- The operations of `smtp.Client` (and of the DATA writer) that return an
error the program looks at. -/
inductive Cmd
  | StartTLS (config : TlsConfig)
  | Hello (localName : String)
  | Mail (sender : String)
  | Rcpt (recipient : String)
  | Data
  | Close
  | Quit
deriving DecidableEq, Repr

/-- One entry of a connection transcript: a command with the error the
library returned for it, or a text printed to the DATA writer (the program
ignores what `fmt.Fprint` returns). -/
inductive Ev
  | cmd (c : Cmd) (res : Option Err)
  | write (text : String)
deriving DecidableEq, Repr

/-- The behaviour of the SMTP library and the remote server on one
connection: the error returned for a command, given everything that happened
on the connection before. -/
abbrev Server := List Ev → Cmd → Option Err

/-- Type `Client` of `main.go`: the connection `c`, here its behaviour and its
transcript so far.  The field `err` of the source is never read or written. -/
structure Client where
  srv : Server
  log : List Ev

/-- Call one of the error-returning operations on the connection. -/
def Client.issue (c : Client) (cmd : Cmd) : Client × Option Err :=
  ({ c with log := c.log ++ [Ev.cmd cmd (c.srv c.log cmd)] }, c.srv c.log cmd)

/-- The calls `fmt.Fprintf(wc, ...)`, `fmt.Fprint(wc, ...)` and
`fmt.Fprintln(wc, ...)` with the formatted text. -/
def Client.fprint (c : Client) (text : String) : Client :=
  { c with log := c.log ++ [Ev.write text] }

/-- What `smtp.Dial` meets: for an address and the number of connections
requested before, either an error or the behaviour of the new connection. -/
abbrev Network := String → Nat → Except Err Server

/-- Function `Dial`: the error of `smtp.Dial`, or a fresh `Client` around the
new connection.  `n` counts the earlier calls. -/
def Dial (net : Network) (addr : String) (n : Nat) : Except Err Client :=
  match net addr n with
  | Except.error err => Except.error err
  | Except.ok srv => Except.ok { srv := srv, log := [] }

/-! ## `Client.SendMail` -/

/-- Lines 130-132: `for i := 1; i < 5; i++ { Fprintf(wc, "La de da de da %d.\n", i) }`. -/
def fillerLoop (i : Int) (c : Client) : Client :=
  if i < 5 then
    fillerLoop (i + 1) (c.fprint ("La de da de da " ++ fmtDec i ++ ".\n"))
  else c
termination_by (5 - i).toNat
decreasing_by omega

/-- Lines 134-139: `for i := 1; i < config.MessageSize; i++` printing `X` and
a line break when `i%80 == 0` (Go's `%` truncates, as `Int.tmod`). -/
def fillLoop (size : Int) (i : Int) (c : Client) : Client :=
  if i < size then
    let c := c.fprint "X"
    let c := if i.tmod 80 = 0 then c.fprint "\n" else c
    fillLoop size (i + 1) c
  else c
termination_by (size - i).toNat
decreasing_by omega

/-- Lines 122-127: the five header lines and the empty line. -/
def writeHeaders (cfg : Config) (p : Process) (c : Client) : Client :=
  let c := c.fprint ("From: <" ++ cfg.Sender ++ ">\n")
  let c := c.fprint ("To: <" ++ cfg.Recipient ++ ">\n")
  let c := c.fprint ("Date: " ++ p.myDate ++ "\n")
  let c := c.fprint ("Subject: " ++ defaultSubject ++ "\n")
  let c := c.fprint ("Message-Id: <" ++ fmtHex04 p.myPid ++ "." ++ fmtHex04 cfg.MessageCount
    ++ "@" ++ myhostname ++ ">\n")
  c.fprint ("" ++ "\n")

/-- Lines 129-140: the body. -/
def writeBody (cfg : Config) (c : Client) : Client :=
  if cfg.MessageSize = 0 then fillerLoop 1 c else fillLoop cfg.MessageSize 1 c

/-- Lines 108-150: the message loop `for i := 0; i < config.MessageCount; i++`.
A result `some err` is the `return err` inside the loop; `none` is leaving the
loop by its condition or by `break`. -/
def sendLoop (cfg : Config) (p : Process) (i : Int) (c : Client) : Client × Option Err :=
  if i < cfg.MessageCount then
    match c.issue (Cmd.Mail cfg.Sender) with
    | (c, some err) => (c, some err)
    | (c, none) =>
      match c.issue (Cmd.Rcpt cfg.Recipient) with
      | (c, some err) => (c, some err)
      | (c, none) =>
        match c.issue Cmd.Data with
        | (c, some err) => (c, some err)
        | (c, none) =>
          let c := writeHeaders cfg p c
          let c := writeBody cfg c
          match c.issue Cmd.Close with
          | (c, some err) => (c, some err)
          | (c, none) =>
            if !cfg.DontDisc then (c, none)
            else sendLoop cfg p (i + 1) c
  else (c, none)
termination_by (cfg.MessageCount - i).toNat
decreasing_by omega

/-- Lines 98-106: STARTTLS when `config.UseTLS`, otherwise HELLO. -/
def greet (cfg : Config) (c : Client) : Client × Option Err :=
  if cfg.UseTLS then c.issue (Cmd.StartTLS cfg.tlsConfig)
  else c.issue (Cmd.Hello myhostname)

/-- Method `Client.SendMail`: the connection after the call and the returned
error. -/
def SendMail (cfg : Config) (p : Process) (c : Client) : Client × Option Err :=
  match greet cfg c with
  | (c, some err) => (c, some err)
  | (c, none) =>
    match sendLoop cfg p 0 c with
    | (c, some err) => (c, some err)
    | (c, none) =>
      match c.issue Cmd.Quit with
      | (c, some err) => (c, some err)
      | (c, none) => (c, none)

/-! ## Goroutines and channels: `main`, `Launch`, `Kick`, `Worker` -/

/-- The built-in `make(chan T, size)`: the capacity of the new channel; a
negative size panics (`none`). -/
def makeChan (size : Int) : Option Nat :=
  if size < 0 then none else some size.toNat

/-- The two channels of `main`, by capacity. -/
structure Chans where
  queue : Nat
  done : Nat
deriving DecidableEq, Repr

/-- Lines 171-172: `queue := make(chan *Client)` and
`done := make(chan struct{}, config.MessageCount)`. -/
def mainChans (cfg : Config) : Option Chans :=
  match makeChan 0, makeChan cfg.MessageCount with
  | some queue, some done => some { queue := queue, done := done }
  | _, _ => none

/-- What the goroutine `Kick` does, in program order. -/
inductive KickOp
  | dial (ok : Bool)
  | logPrint (err : Err)
  | sendDone
  | sendQueue (c : Client)

/-- Lines 206-214: the loop of `Kick`. -/
def KickLoop (cfg : Config) (net : Network) (messageCount : Int) (i : Int) : List KickOp :=
  if i < messageCount then
    match Dial net cfg.Host i.toNat with
    | Except.error err =>
      KickOp.dial false :: KickOp.logPrint err :: KickOp.sendDone ::
        KickLoop cfg net messageCount (i + 1)
    | Except.ok c =>
      KickOp.dial true :: KickOp.sendQueue c :: KickLoop cfg net messageCount (i + 1)
  else []
termination_by (messageCount - i).toNat
decreasing_by all_goals omega

/-- Function `Kick`: the operations it performs when none of its channel
sends is refused for ever. -/
def Kick (cfg : Config) (net : Network) : List KickOp :=
  let messageCount := if cfg.DontDisc then 1 else cfg.MessageCount
  KickLoop cfg net messageCount 0

/-- Program position of one `Worker` goroutine: blocked in `range queue`,
holding a client on which `SendMail` is about to be called, or about to send
on `done`. -/
inductive WorkerPc
  | recv
  | run (c : Client)
  | send

/-- Lines 196-198: the loop of `Launch`, one `Worker` per iteration. -/
def LaunchLoop (cfg : Config) (i : Int) : List WorkerPc :=
  if i < cfg.Sessions then WorkerPc.recv :: LaunchLoop cfg (i + 1) else []
termination_by (cfg.Sessions - i).toNat
decreasing_by omega

/-- Function `Launch`: the pool of workers it starts. -/
def Launch (cfg : Config) : List WorkerPc := LaunchLoop cfg 0

/-- What the goroutine `main` does after `go Kick`. -/
inductive MainOp
  | recvDone
deriving DecidableEq, Repr

/-- Lines 178-183: the loop in which `main` waits for completion signals. -/
def mainLoop (cfg : Config) (i : Int) : List MainOp :=
  if i < cfg.MessageCount then
    MainOp.recvDone :: (if cfg.DontDisc then [] else mainLoop cfg (i + 1))
  else []
termination_by (cfg.MessageCount - i).toNat
decreasing_by omega

/-- Events of a run of the whole program. -/
inductive Obs
  | dial (ok : Bool)
  | kickDone
  | handOff (w : Nat)
  | sendMail (w : Nat) (err : Option Err)
  | workerDone (w : Nat)
  | mainRecv
deriving DecidableEq, Repr

/-- State of the running program: what `Kick` and `main` have still to do,
the position of every worker, the number of tokens in the buffer of `done`
and its capacity, and the events so far. -/
structure State where
  kick : List KickOp
  workers : List WorkerPc
  main : List MainOp
  doneBuf : Nat
  doneCap : Nat
  trace : List Obs

/-- Function `main` from line 171 to line 176: the state in which the
goroutines start (`none` when `make` panics). -/
def main (cfg : Config) (net : Network) : Option State :=
  match mainChans cfg with
  | none => none
  | some chans =>
    some
      { kick := Kick cfg net
        workers := Launch cfg
        main := mainLoop cfg 0
        doneBuf := 0
        doneCap := chans.done
        trace := [] }

/-- The send `queue <- c` of `Kick` meeting the receive of a worker blocked in
`range queue`: one successor per such worker (`queue` has no buffer). -/
def handOffs (s : State) (c : Client) (rest : List KickOp) : List State :=
  (List.range s.workers.length).filterMap fun w =>
    match s.workers.get? w with
    | some WorkerPc.recv =>
      some { s with kick := rest, workers := s.workers.set w (WorkerPc.run c)
                    trace := s.trace ++ [Obs.handOff w] }
    | _ => none

/-- Steps of the goroutine `Kick`. -/
def kickSteps (s : State) : List State :=
  match s.kick with
  | [] => []
  | KickOp.dial ok :: rest => [{ s with kick := rest, trace := s.trace ++ [Obs.dial ok] }]
  | KickOp.logPrint _ :: rest => [{ s with kick := rest }]
  | KickOp.sendDone :: rest =>
    if s.doneBuf < s.doneCap then
      [{ s with kick := rest, doneBuf := s.doneBuf + 1, trace := s.trace ++ [Obs.kickDone] }]
    else []
  | KickOp.sendQueue c :: rest => handOffs s c rest

/-- Function `Worker`, lines 219-220, for worker number `w` at position `pc`:
call `c.SendMail()` and drop its result, then send on `done`, then go back to
`range queue`. -/
def Worker (cfg : Config) (p : Process) (s : State) (w : Nat) (pc : WorkerPc) : List State :=
  match pc with
  | WorkerPc.recv => []
  | WorkerPc.run c =>
    [{ s with workers := s.workers.set w WorkerPc.send
              trace := s.trace ++ [Obs.sendMail w (SendMail cfg p c).2] }]
  | WorkerPc.send =>
    if s.doneBuf < s.doneCap then
      [{ s with workers := s.workers.set w WorkerPc.recv, doneBuf := s.doneBuf + 1
                trace := s.trace ++ [Obs.workerDone w] }]
    else []

/-- Steps of the worker goroutines. -/
def workerSteps (cfg : Config) (p : Process) (s : State) : List State :=
  (List.range s.workers.length).flatMap fun w =>
    match s.workers.get? w with
    | some pc => Worker cfg p s w pc
    | none => []

/-- Steps of the goroutine `main`: `<-done` takes a token when there is one. -/
def mainSteps (s : State) : List State :=
  match s.main with
  | [] => []
  | MainOp.recvDone :: rest =>
    if 0 < s.doneBuf then
      [{ s with main := rest, doneBuf := s.doneBuf - 1, trace := s.trace ++ [Obs.mainRecv] }]
    else []

/-- All states the program can be in after one more step.  When `main` has
left its loop it returns and the process is over. -/
def next (cfg : Config) (p : Process) (s : State) : List State :=
  match s.main with
  | [] => []
  | _ :: _ => kickSteps s ++ workerSteps cfg p s ++ mainSteps s

/-- States the program can reach from `s0`. -/
inductive Reachable (cfg : Config) (p : Process) (s0 : State) : State → Prop
  | start : Reachable cfg p s0 s0
  | step {s s' : State} : Reachable cfg p s0 s → s' ∈ next cfg p s → Reachable cfg p s0 s'

/-- Number of completion signals sent on `done` so far. -/
def signals (tr : List Obs) : Nat :=
  tr.countP fun o =>
    match o with
    | Obs.kickDone => true
    | Obs.workerDone _ => true
    | _ => false

/-! ## Definitions used to state the properties -/

/-- The texts of the header block. -/
def headerLines (cfg : Config) (p : Process) : List String :=
  [ "From: <" ++ cfg.Sender ++ ">\n",
    "To: <" ++ cfg.Recipient ++ ">\n",
    "Date: " ++ p.myDate ++ "\n",
    "Subject: from go-smtp-source\n",
    "Message-Id: <" ++ fmtHex04 p.myPid ++ "." ++ fmtHex04 cfg.MessageCount ++ "@localhost>\n",
    "\n" ]

/-- Fill texts for the counters `i, i+1, ..., i+n-1`. -/
def fillChunks (i n : Nat) : List String :=
  (List.range' i n).flatMap fun k => "X" :: (if k % 80 = 0 then ["\n"] else [])

/-- The texts of the body. -/
def bodyChunks (cfg : Config) : List String :=
  if cfg.MessageSize = 0 then
    ["La de da de da 1.\n", "La de da de da 2.\n", "La de da de da 3.\n", "La de da de da 4.\n"]
  else fillChunks 1 (cfg.MessageSize - 1).toNat

/-- Everything printed to the DATA writer for one message. -/
def messageWrites (cfg : Config) (p : Process) : List Ev :=
  (headerLines cfg p ++ bodyChunks cfg).map Ev.write

/-- The transcript of one message that went through. -/
def cycle (cfg : Config) (p : Process) : List Ev :=
  Ev.cmd (Cmd.Mail cfg.Sender) none :: Ev.cmd (Cmd.Rcpt cfg.Recipient) none ::
    Ev.cmd Cmd.Data none :: (messageWrites cfg p ++ [Ev.cmd Cmd.Close none])

/-- The transcript of `j` messages that went through. -/
def cycles (cfg : Config) (p : Process) : Nat → List Ev
  | 0 => []
  | j + 1 => cycle cfg p ++ cycles cfg p j

/-- The transcript of a message during which a command failed with `e`. -/
inductive FailTail (cfg : Config) (p : Process) (e : Err) : List Ev → Prop
  | mail : FailTail cfg p e [Ev.cmd (Cmd.Mail cfg.Sender) (some e)]
  | rcpt : FailTail cfg p e
      [Ev.cmd (Cmd.Mail cfg.Sender) none, Ev.cmd (Cmd.Rcpt cfg.Recipient) (some e)]
  | data : FailTail cfg p e
      [Ev.cmd (Cmd.Mail cfg.Sender) none, Ev.cmd (Cmd.Rcpt cfg.Recipient) none,
        Ev.cmd Cmd.Data (some e)]
  | close : FailTail cfg p e
      (Ev.cmd (Cmd.Mail cfg.Sender) none :: Ev.cmd (Cmd.Rcpt cfg.Recipient) none ::
        Ev.cmd Cmd.Data none :: (messageWrites cfg p ++ [Ev.cmd Cmd.Close (some e)]))

/-- Number of iterations of the message loop with `n` iterations allowed by
its condition: the `break` stops it after the first unless `DontDisc`. -/
def loopBound (dontDisc : Bool) (n : Nat) : Nat :=
  if dontDisc then n else min 1 n

/-- Number of messages one call of `SendMail` sends when nothing fails. -/
def messagesPerConnection (cfg : Config) : Nat :=
  loopBound cfg.DontDisc cfg.MessageCount.toNat

/-- Every response recorded in the transcript `evs`, which follows the history
`hist`, is the one the server gives at that point. -/
def Answers (srv : Server) : List Ev → List Ev → Prop
  | _, [] => True
  | hist, Ev.cmd c r :: rest => r = srv hist c ∧ Answers srv (hist ++ [Ev.cmd c r]) rest
  | hist, Ev.write t :: rest => Answers srv (hist ++ [Ev.write t]) rest

/-- The transcript of a client records the responses of its server. -/
def Faithful (c : Client) : Prop := Answers c.srv [] c.log

/-- Outcome of the message loop started on `c` with `k` iterations ahead: the
transcript grows by some complete messages and, when a command failed, by the
message that failed; without failure all `k` messages are there. -/
def LoopPost (cfg : Config) (p : Process) (c : Client) (k : Nat)
    (r : Client × Option Err) : Prop :=
  r.1.srv = c.srv ∧ (Faithful c → Faithful r.1) ∧
  ∃ j tail, r.1.log = c.log ++ cycles cfg p j ++ tail ∧
    ((r.2 = none ∧ tail = [] ∧ j = k) ∨ (∃ e, r.2 = some e ∧ FailTail cfg p e tail ∧ j < k))

/-- The first command of a session. -/
def greeting (cfg : Config) : Cmd :=
  if cfg.UseTLS then Cmd.StartTLS cfg.tlsConfig else Cmd.Hello "localhost"

/-- The shapes a transcript of one `SendMail` call can have, with the result
`res` of the call: the greeting failed; or the greeting went through and some
messages were sent completely, followed either by a message during which a
command failed or, all messages of the connection being sent, by QUIT. -/
def Transcript (cfg : Config) (p : Process) (log : List Ev) (res : Option Err) : Prop :=
  (∃ e, res = some e ∧ log = [Ev.cmd (greeting cfg) (some e)]) ∨
  (∃ j tail, log = Ev.cmd (greeting cfg) none :: (cycles cfg p j ++ tail) ∧
    ((∃ e, res = some e ∧ FailTail cfg p e tail ∧ j < messagesPerConnection cfg) ∨
      (j = messagesPerConnection cfg ∧ tail = [Ev.cmd Cmd.Quit res])))

/-- In the transcript `l` every DATA command that went through is followed by
the texts `m` and the closing of the DATA writer. -/
def DataFollowed (m : List Ev) (l : List Ev) : Prop :=
  ∀ pre post, l = pre ++ Ev.cmd Cmd.Data none :: post →
    ∃ x rest, post = m ++ Ev.cmd Cmd.Close x :: rest

/-- The commands of a transcript, without responses and printed texts. -/
def commands (log : List Ev) : List Cmd :=
  log.filterMap fun ev =>
    match ev with
    | Ev.cmd c _ => some c
    | Ev.write _ => none

/-- Number of messages started in a transcript (MAIL commands). -/
def mailCount (log : List Ev) : Nat :=
  log.countP fun ev =>
    match ev with
    | Ev.cmd (Cmd.Mail _) _ => true
    | _ => false

/-- Number of messages sent in a transcript (DATA writers closed without
error). -/
def sentCount (log : List Ev) : Nat :=
  log.countP fun ev =>
    match ev with
    | Ev.cmd Cmd.Close none => true
    | _ => false

/-- The entry is a command that failed. -/
def Ev.failed (ev : Ev) : Bool :=
  match ev with
  | Ev.cmd _ (some _) => true
  | _ => false

/-- The characters printed to the DATA writer in a transcript. -/
def written (evs : List Ev) : List Char :=
  evs.flatMap fun ev =>
    match ev with
    | Ev.write t => t.data
    | Ev.cmd _ _ => []

/-- Value of a lower-case hexadecimal digit. -/
def hexVal (c : Char) : Option Nat :=
  if '0' ≤ c ∧ c ≤ '9' then some (c.toNat - '0'.toNat)
  else if 'a' ≤ c ∧ c ≤ 'f' then some (c.toNat - 'a'.toNat + 10)
  else none

/-- Reading a numeral of lower-case hexadecimal digits, most significant
first, continuing from the value `acc`. -/
def parseHexFrom (acc : Nat) : List Char → Option Nat
  | [] => some acc
  | c :: cs =>
    match hexVal c with
    | some d => parseHexFrom (16 * acc + d) cs
    | none => none

/-- Reading a numeral of lower-case hexadecimal digits. -/
def parseHex (cs : List Char) : Option Nat := parseHexFrom 0 cs

/-- No command of the transcript failed. -/
def NoFail (l : List Ev) : Prop := ∀ ev ∈ l, ev.failed = false

/-- The commands of one message that went through. -/
def cycleCommands (cfg : Config) : List Cmd :=
  [Cmd.Mail cfg.Sender, Cmd.Rcpt cfg.Recipient, Cmd.Data, Cmd.Close]

/-- A server that accepts every command. -/
def okServer : Server := fun _ _ => none

/-- A server that refuses every recipient. -/
def rcptFailServer : Server := fun _ c =>
  match c with
  | Cmd.Rcpt _ => some "550 no such user"
  | _ => none

/-- A sample configuration: the defaults of `Parse` for the host `mx`. -/
def sampleConfig : Config :=
  { Host := "mx", Sender := "from@example.com", Recipient := "to@example.com"
    MessageCount := 1, Sessions := 1, MessageSize := 0, UseTLS := false, DontDisc := false
    tlsConfig := { InsecureSkipVerify := true } }

/-- A sample process. -/
def sampleProcess : Process := { myDate := "Mon, 02 Jan 2006 15:04:05 MST", myPid := 4660 }

/-- What `Kick` does for its `n`-th dial attempt. -/
def kickBlock (cfg : Config) (net : Network) (n : Nat) : List KickOp :=
  match Dial net cfg.Host n with
  | Except.error err => [KickOp.dial false, KickOp.logPrint err, KickOp.sendDone]
  | Except.ok c => [KickOp.dial true, KickOp.sendQueue c]

/-- Number of iterations of the loop of `Kick`. -/
def attempts (cfg : Config) : Nat :=
  if cfg.DontDisc then 1 else cfg.MessageCount.toNat

/-- The operation is a call of `Dial`. -/
def KickOp.isDial (op : KickOp) : Bool :=
  match op with
  | KickOp.dial _ => true
  | _ => false

/-- Number of dial attempts among the operations of `Kick`. -/
def dialCount (ops : List KickOp) : Nat := ops.countP KickOp.isDial

/-- A network on which every second dial is refused. -/
def sampleNetwork : Network := fun _ n =>
  if n % 2 = 0 then Except.ok okServer else Except.error "connection refused"

/-! ## Definitions used to state the properties of the running program -/

/-- One step of the running program, as a relation: the same steps as `next`,
one constructor for each kind. -/
inductive Step (cfg : Config) (p : Process) : State → State → Prop
  | dial (s : State) (m : MainOp) (ms : List MainOp) (ok : Bool) (rest : List KickOp)
      (hm : s.main = m :: ms) (hk : s.kick = KickOp.dial ok :: rest) :
      Step cfg p s { s with kick := rest, trace := s.trace ++ [Obs.dial ok] }
  | logPrint (s : State) (m : MainOp) (ms : List MainOp) (err : Err) (rest : List KickOp)
      (hm : s.main = m :: ms) (hk : s.kick = KickOp.logPrint err :: rest) :
      Step cfg p s { s with kick := rest }
  | kickDone (s : State) (m : MainOp) (ms : List MainOp) (rest : List KickOp)
      (hm : s.main = m :: ms) (hk : s.kick = KickOp.sendDone :: rest)
      (hb : s.doneBuf < s.doneCap) :
      Step cfg p s
        { s with kick := rest, doneBuf := s.doneBuf + 1, trace := s.trace ++ [Obs.kickDone] }
  | handOff (s : State) (m : MainOp) (ms : List MainOp) (c : Client) (rest : List KickOp)
      (w : Nat) (hm : s.main = m :: ms) (hk : s.kick = KickOp.sendQueue c :: rest)
      (hw : s.workers.get? w = some WorkerPc.recv) :
      Step cfg p s
        { s with kick := rest, workers := s.workers.set w (WorkerPc.run c)
                 trace := s.trace ++ [Obs.handOff w] }
  | sendMail (s : State) (m : MainOp) (ms : List MainOp) (w : Nat) (c : Client)
      (hm : s.main = m :: ms) (hw : s.workers.get? w = some (WorkerPc.run c)) :
      Step cfg p s
        { s with workers := s.workers.set w WorkerPc.send
                 trace := s.trace ++ [Obs.sendMail w (SendMail cfg p c).2] }
  | workerDone (s : State) (m : MainOp) (ms : List MainOp) (w : Nat)
      (hm : s.main = m :: ms) (hw : s.workers.get? w = some WorkerPc.send)
      (hb : s.doneBuf < s.doneCap) :
      Step cfg p s
        { s with workers := s.workers.set w WorkerPc.recv, doneBuf := s.doneBuf + 1
                 trace := s.trace ++ [Obs.workerDone w] }
  | mainRecv (s : State) (rest : List MainOp) (hm : s.main = MainOp.recvDone :: rest)
      (hb : 0 < s.doneBuf) :
      Step cfg p s
        { s with main := rest, doneBuf := s.doneBuf - 1, trace := s.trace ++ [Obs.mainRecv] }

/-- Number of completion signals a worker at this position still owes for the
client it took from `queue`. -/
def WorkerPc.load : WorkerPc → Nat
  | WorkerPc.recv => 0
  | WorkerPc.run _ => 1
  | WorkerPc.send => 1

/-- Number of steps a worker at this position makes before it waits on
`queue` again. -/
def WorkerPc.weight : WorkerPc → Nat
  | WorkerPc.recv => 0
  | WorkerPc.run _ => 2
  | WorkerPc.send => 1

/-- Sum of a quantity over the pool of workers. -/
def poolSum (f : WorkerPc → Nat) (ws : List WorkerPc) : Nat := (ws.map f).sum

/-- A bound on the number of steps the program can still make. -/
def runMeasure (s : State) : Nat :=
  3 * s.kick.length + poolSum WorkerPc.weight s.workers + s.main.length

/-- Number of completion signals sent by `Kick`. -/
def kickSignals (tr : List Obs) : Nat :=
  tr.countP fun o =>
    match o with
    | Obs.kickDone => true
    | _ => false

/-- Number of completion signals sent by workers. -/
def workerSignals (tr : List Obs) : Nat :=
  tr.countP fun o =>
    match o with
    | Obs.workerDone _ => true
    | _ => false

/-- Number of clients handed from `Kick` to a worker through `queue`. -/
def handOffCount (tr : List Obs) : Nat :=
  tr.countP fun o =>
    match o with
    | Obs.handOff _ => true
    | _ => false

/-- Number of calls of `Dial` that returned an error. -/
def failedDials (tr : List Obs) : Nat :=
  tr.countP fun o =>
    match o with
    | Obs.dial false => true
    | _ => false

/-- Number of calls of `Dial` that returned a client. -/
def okDials (tr : List Obs) : Nat :=
  tr.countP fun o =>
    match o with
    | Obs.dial true => true
    | _ => false

/-- Number of completion signals `main` has received. -/
def recvCount (tr : List Obs) : Nat :=
  tr.countP fun o =>
    match o with
    | Obs.mainRecv => true
    | _ => false

/-- What `Kick` has still to do for the dial attempt it is working on, with
the number of completion signals and of clients it owes for it. -/
inductive Partial : List KickOp → Nat → Nat → Prop
  | idle : Partial [] 0 0
  | log (err : Err) : Partial [KickOp.logPrint err, KickOp.sendDone] 1 0
  | done : Partial [KickOp.sendDone] 1 0
  | queue (c : Client) : Partial [KickOp.sendQueue c] 0 1

/-- The invariant of the running program. -/
structure Inv (cfg : Config) (net : Network) (s : State) : Prop where
  cap : s.doneCap = cfg.MessageCount.toNat
  pool : s.workers.length = cfg.Sessions.toNat
  kick : ∃ m part pd pq,
    s.kick = part ++ (List.range' m (attempts cfg - m)).flatMap (kickBlock cfg net) ∧
    m ≤ attempts cfg ∧ Partial part pd pq ∧
    failedDials s.trace = kickSignals s.trace + pd ∧
    okDials s.trace = handOffCount s.trace + pq ∧
    failedDials s.trace + okDials s.trace = m
  work : handOffCount s.trace = workerSignals s.trace + poolSum WorkerPc.load s.workers
  buf : kickSignals s.trace + workerSignals s.trace = recvCount s.trace + s.doneBuf
  wait : s.main.length + recvCount s.trace = attempts cfg

/-- A sample configuration: three messages over two sessions. -/
def threeMessages : Config := { sampleConfig with MessageCount := 3, Sessions := 2 }

/-- A sample configuration: one message and no session (`-s 0`). -/
def noSession : Config := { sampleConfig with Sessions := 0 }

/-- Number of clients a worker at this position holds on which `SendMail` is
still to be called. -/
def WorkerPc.pending : WorkerPc → Nat
  | WorkerPc.recv => 0
  | WorkerPc.run _ => 1
  | WorkerPc.send => 0

/-- Number of calls of `SendMail` made by workers. -/
def sendMailCount (tr : List Obs) : Nat :=
  tr.countP fun o =>
    match o with
    | Obs.sendMail _ _ => true
    | _ => false

/-- What the running program keeps true about the clients: `Kick` is
somewhere in its list of operations, a worker holds only a client `Kick` handed
over, every call of `SendMail` was made on such a client and its result is
what the event records, and every client handed over has had its call or is
held by a worker about to make it. -/
structure Handed (cfg : Config) (net : Network) (p : Process) (s : State) : Prop where
  suffix : ∃ pre, Kick cfg net = pre ++ s.kick
  running : ∀ w c, s.workers.get? w = some (WorkerPc.run c) →
    KickOp.sendQueue c ∈ Kick cfg net
  called : ∀ w err, Obs.sendMail w err ∈ s.trace →
    ∃ c, KickOp.sendQueue c ∈ Kick cfg net ∧ err = (SendMail cfg p c).2
  count : sendMailCount s.trace + poolSum WorkerPc.pending s.workers = handOffCount s.trace

/-- A sample configuration: two messages and no session (`-m 2 -s 0`). -/
def twoNoSession : Config := { sampleConfig with MessageCount := 2, Sessions := 0 }

/-- The state in which `twoNoSession` starts on `sampleNetwork`. -/
def twoNoSessionStart : State :=
  { kick := [KickOp.dial true, KickOp.sendQueue { srv := okServer, log := [] },
      KickOp.dial false, KickOp.logPrint "connection refused", KickOp.sendDone]
    workers := []
    main := [MainOp.recvDone, MainOp.recvDone]
    doneBuf := 0
    doneCap := 2
    trace := [] }

/-- The state of `twoNoSession` on `sampleNetwork` after the first dial. -/
def twoNoSessionStuck : State :=
  { kick := [KickOp.sendQueue { srv := okServer, log := [] },
      KickOp.dial false, KickOp.logPrint "connection refused", KickOp.sendDone]
    workers := []
    main := [MainOp.recvDone, MainOp.recvDone]
    doneBuf := 0
    doneCap := 2
    trace := [Obs.dial true] }

/-! ## Lemmas on `SendMail` -/

theorem fprint_srv (c : Client) (t : String) : (c.fprint t).srv = c.srv := rfl

theorem fprint_log (c : Client) (t : String) : (c.fprint t).log = c.log ++ [Ev.write t] := rfl

theorem fillerLoop_eq (c : Client) :
    fillerLoop 1 c = { c with log := c.log ++ ["La de da de da 1.\n", "La de da de da 2.\n",
      "La de da de da 3.\n", "La de da de da 4.\n"].map Ev.write } := by
  rw [fillerLoop]; simp only [show (1:Int) < 5 by decide, if_true]
  rw [fillerLoop]; simp only [show (1:Int) + 1 < 5 by decide, if_true]
  rw [fillerLoop]; simp only [show (1:Int) + 1 + 1 < 5 by decide, if_true]
  rw [fillerLoop]; simp only [show (1:Int) + 1 + 1 + 1 < 5 by decide, if_true]
  rw [fillerLoop]; simp only [show ¬ ((1:Int) + 1 + 1 + 1 + 1 < 5) by decide, if_false]
  simp [Client.fprint, fmtDec]
  decide

theorem fillLoop_eq (size : Int) (n : Nat) : ∀ (i : Nat) (c : Client), 1 ≤ i →
    (size - (i : Int)).toNat = n →
    fillLoop size i c = { c with log := c.log ++ (fillChunks i n).map Ev.write } := by
  induction n with
  | zero =>
    intro i c _ h
    rw [fillLoop]
    have : ¬ ((i : Int) < size) := by omega
    simp [this, fillChunks]
  | succ n ih =>
    intro i c hi h
    rw [fillLoop]
    have hlt : (i : Int) < size := by omega
    simp only [hlt, if_true]
    have hcast : ((i : Int) + 1) = ((i + 1 : Nat) : Int) := by push_cast; rfl
    rw [hcast, ih (i + 1) _ (by omega) (by omega)]
    have hmod : (i : Int).tmod 80 = 0 ↔ i % 80 = 0 := by
      rw [Int.tmod_eq_emod (by omega) (by decide)]
      omega
    by_cases hm : i % 80 = 0
    · simp [hmod.mpr hm, hm, fillChunks, List.range'_succ, Client.fprint]
    · have hm' : ¬ (i : Int).tmod 80 = 0 := fun h => hm (hmod.mp h)
      simp [hm', hm, fillChunks, List.range'_succ, Client.fprint]

theorem writeHeaders_eq (cfg : Config) (p : Process) (c : Client) :
    writeHeaders cfg p c = { c with log := c.log ++ (headerLines cfg p).map Ev.write } := by
  have h1 : "Subject: " ++ defaultSubject ++ "\n" = "Subject: from go-smtp-source\n" := by decide
  have h2 : "" ++ "\n" = "\n" := by decide
  have h3 : ∀ s : String, s ++ "@" ++ myhostname ++ ">\n" = s ++ "@localhost>\n" := by
    intro s
    rw [String.append_assoc, String.append_assoc]
    congr 1
  simp [writeHeaders, headerLines, Client.fprint, h1, h2, h3]

theorem writeBody_eq (cfg : Config) (c : Client) :
    writeBody cfg c = { c with log := c.log ++ (bodyChunks cfg).map Ev.write } := by
  unfold writeBody bodyChunks
  by_cases h : cfg.MessageSize = 0
  · simp only [h, if_true]; exact fillerLoop_eq c
  · simp only [h, if_false]
    have := fillLoop_eq cfg.MessageSize (cfg.MessageSize - 1).toNat 1 c (le_refl 1) (by simp)
    simpa using this

theorem Answers_append (srv : Server) (a b : List Ev) : ∀ hist,
    Answers srv hist (a ++ b) ↔ Answers srv hist a ∧ Answers srv (hist ++ a) b := by
  induction a with
  | nil => intro hist; simp [Answers]
  | cons x a ih =>
    intro hist
    cases x with
    | cmd c r => simp [Answers, ih, and_assoc]
    | write t => simp [Answers, ih]

theorem Answers_writes (srv : Server) (l : List String) : ∀ hist,
    Answers srv hist (l.map Ev.write) := by
  induction l with
  | nil => intro hist; simp [Answers]
  | cons x l ih => intro hist; simp [Answers, ih]

theorem Faithful_issue (c : Client) (cmd : Cmd) (h : Faithful c) : Faithful (c.issue cmd).1 := by
  unfold Faithful at *
  simp [Client.issue, Answers_append, Answers, h]

theorem Faithful_log (c : Client) (l : List String) (h : Faithful c) :
    Faithful { c with log := c.log ++ l.map Ev.write } := by
  unfold Faithful at *
  simp [Answers_append, Answers_writes, h]

theorem Faithful_fail (c : Client) (cmd : Cmd) (r : Option Err) (hr : c.srv c.log cmd = r)
    (h : Faithful c) : Faithful { c with log := c.log ++ [Ev.cmd cmd r] } := by
  subst hr; exact Faithful_issue c cmd h

theorem loopBound_succ_pos (d : Bool) (n : Nat) : 0 < loopBound d (n + 1) := by
  unfold loopBound; split <;> simp

theorem sendLoop_spec (cfg : Config) (p : Process) (n : Nat) : ∀ (i : Int) (c : Client),
    (cfg.MessageCount - i).toNat = n →
    LoopPost cfg p c (loopBound cfg.DontDisc n) (sendLoop cfg p i c) := by
  induction n with
  | zero =>
    intro i c h
    rw [sendLoop]
    have : ¬ (i < cfg.MessageCount) := by omega
    rw [if_neg this]
    exact ⟨rfl, id, 0, [], by simp [cycles], Or.inl ⟨rfl, rfl, by simp [loopBound]⟩⟩
  | succ n ih =>
    intro i c h
    rw [sendLoop]
    have hlt : i < cfg.MessageCount := by omega
    have hpos := loopBound_succ_pos cfg.DontDisc n
    rw [if_pos hlt]
    simp only [Client.issue]
    have f1 := Faithful_fail c (Cmd.Mail cfg.Sender) _ rfl
    cases h1 : c.srv c.log (Cmd.Mail cfg.Sender) with
    | some e =>
      rw [h1] at f1
      exact ⟨rfl, f1, 0, _, by simp [cycles], Or.inr ⟨e, rfl, FailTail.mail, hpos⟩⟩
    | none =>
      rw [h1] at f1
      simp only []
      have f2 := fun hc => Faithful_fail _ (Cmd.Rcpt cfg.Recipient) _ rfl (f1 hc)
      cases h2 : c.srv (c.log ++ [Ev.cmd (Cmd.Mail cfg.Sender) none]) (Cmd.Rcpt cfg.Recipient) with
      | some e =>
        simp only [h2] at f2
        exact ⟨rfl, f2, 0, _, by simp [cycles], Or.inr ⟨e, rfl, FailTail.rcpt, hpos⟩⟩
      | none =>
        simp only [h2] at f2
        simp only []
        have f3 := fun hc => Faithful_fail _ Cmd.Data _ rfl (f2 hc)
        cases h3 : c.srv (c.log ++ [Ev.cmd (Cmd.Mail cfg.Sender) none] ++
            [Ev.cmd (Cmd.Rcpt cfg.Recipient) none]) Cmd.Data with
        | some e =>
          simp only [h3] at f3
          exact ⟨rfl, f3, 0, _, by simp [cycles], Or.inr ⟨e, rfl, FailTail.data, hpos⟩⟩
        | none =>
          simp only [h3] at f3
          simp only [writeHeaders_eq, writeBody_eq]
          have f4 := fun hc => Faithful_fail _ Cmd.Close _ rfl
            (Faithful_log _ (bodyChunks cfg) (Faithful_log _ (headerLines cfg p) (f3 hc)))
          simp only [] at f4
          generalize c.srv _ Cmd.Close = r4 at f4 ⊢
          cases r4 with
          | some e =>
            exact ⟨rfl, f4, 0, _, by simp [cycles, messageWrites],
              Or.inr ⟨e, rfl, FailTail.close, hpos⟩⟩
          | none =>
            simp only []
            cases hd : cfg.DontDisc with
            | false =>
              refine ⟨rfl, f4, 1, [], ?_, Or.inl ⟨rfl, rfl, ?_⟩⟩
              · simp [cycles, cycle, messageWrites]
              · simp [loopBound]
            | true =>
              simp only [Bool.not_true, Bool.false_eq_true, if_false]
              obtain ⟨hs, hf, j, tail, hlog, hres⟩ := ih (i + 1) _ (by omega)
              refine ⟨hs, fun hc => hf (f4 hc), j + 1, tail, ?_, ?_⟩
              · rw [hlog]; simp [cycles, cycle, messageWrites]
              · rw [hd] at hres
                rcases hres with ⟨h5, h6, h7⟩ | ⟨e, h5, h6, h7⟩
                · exact Or.inl ⟨h5, h6, by simp [loopBound] at h7 ⊢; exact h7⟩
                · exact Or.inr ⟨e, h5, h6, by simp [loopBound] at h7 ⊢; exact h7⟩

theorem greet_eq (cfg : Config) (c : Client) : greet cfg c = c.issue (greeting cfg) := by
  unfold greet greeting myhostname
  split <;> rfl

theorem SendMail_spec (cfg : Config) (p : Process) (c : Client) :
    (SendMail cfg p c).1.srv = c.srv ∧ (Faithful c → Faithful (SendMail cfg p c).1) ∧
    ∃ suf, (SendMail cfg p c).1.log = c.log ++ suf ∧
      Transcript cfg p suf (SendMail cfg p c).2 := by
  unfold SendMail
  rw [greet_eq]
  have f1 := Faithful_fail c (greeting cfg) _ rfl
  simp only [Client.issue]
  cases h1 : c.srv c.log (greeting cfg) with
  | some e =>
    rw [h1] at f1
    exact ⟨rfl, f1, _, rfl, Or.inl ⟨e, rfl, rfl⟩⟩
  | none =>
    rw [h1] at f1
    simp only []
    obtain ⟨hs, hf, j, tail, hlog, hres⟩ :=
      sendLoop_spec cfg p _ 0 { srv := c.srv, log := c.log ++ [Ev.cmd (greeting cfg) none] } rfl
    have hk : loopBound cfg.DontDisc (cfg.MessageCount - 0).toNat = messagesPerConnection cfg := by
      simp [messagesPerConnection]
    rw [hk] at hres
    generalize sendLoop cfg p 0 _ = r at hs hf hlog hres
    obtain ⟨c2, r2⟩ := r
    simp only [] at hs hf hlog hres
    rcases hres with ⟨h5, h6, h7⟩ | ⟨e, h5, h6, h7⟩
    · subst h5 h6
      simp only []
      have f2 := fun hc => Faithful_fail c2 Cmd.Quit _ rfl (hf (f1 hc))
      have hq : ∀ r, (match (({ srv := c2.srv, log := c2.log ++ [Ev.cmd Cmd.Quit r] } : Client), r) with
          | (c, some err) => (c, some err)
          | (c, none) => (c, none)) = ({ srv := c2.srv, log := c2.log ++ [Ev.cmd Cmd.Quit r] }, r) := by
        intro r; cases r <;> rfl
      rw [hq]
      refine ⟨hs, f2, _, ?_, Or.inr ⟨j, _, rfl, Or.inr ⟨h7, rfl⟩⟩⟩
      simp [hlog]
    · subst h5
      simp only []
      refine ⟨hs, fun hc => hf (f1 hc), _, ?_, Or.inr ⟨j, tail, rfl, Or.inl ⟨e, rfl, h6, h7⟩⟩⟩
      simp [hlog]

theorem DataFollowed_nil (m : List Ev) : DataFollowed m [] := by
  intro pre post h
  simp at h

theorem DataFollowed_cons (m : List Ev) (x : Ev) (l : List Ev) (hx : x ≠ Ev.cmd Cmd.Data none)
    (h : DataFollowed m l) : DataFollowed m (x :: l) := by
  intro pre post hl
  cases pre with
  | nil =>
    simp at hl
    exact absurd hl.1 hx
  | cons y pre =>
    simp at hl
    exact h pre post hl.2

theorem DataFollowed_writes (m : List Ev) (ws : List String) (l : List Ev)
    (h : DataFollowed m l) : DataFollowed m (ws.map Ev.write ++ l) := by
  induction ws with
  | nil => simpa using h
  | cons w ws ih => exact DataFollowed_cons m _ _ (by simp) ih

theorem DataFollowed_data (ws : List String) (x : Option Err) (l : List Ev)
    (h : DataFollowed (ws.map Ev.write) l) :
    DataFollowed (ws.map Ev.write)
      (Ev.cmd Cmd.Data none :: (ws.map Ev.write ++ Ev.cmd Cmd.Close x :: l)) := by
  intro pre post hl
  cases pre with
  | nil =>
    simp at hl
    exact ⟨x, l, hl.symm⟩
  | cons y pre =>
    simp only [List.cons_append, List.cons.injEq] at hl
    exact DataFollowed_writes _ ws _ (DataFollowed_cons _ _ _ (by simp) h) pre post hl.2

theorem DataFollowed_cycles (cfg : Config) (p : Process) (l : List Ev)
    (h : DataFollowed (messageWrites cfg p) l) :
    ∀ j, DataFollowed (messageWrites cfg p) (cycles cfg p j ++ l) := by
  intro j
  induction j with
  | zero => simpa [cycles] using h
  | succ j ih =>
    have := DataFollowed_data (headerLines cfg p ++ bodyChunks cfg) none _ ih
    simp only [cycles, cycle, List.cons_append, List.append_assoc, List.singleton_append]
    exact DataFollowed_cons _ _ _ (by simp) (DataFollowed_cons _ _ _ (by simp) this)

theorem DataFollowed_failTail (cfg : Config) (p : Process) (e : Err) (tail : List Ev)
    (h : FailTail cfg p e tail) : DataFollowed (messageWrites cfg p) tail := by
  cases h with
  | mail => exact DataFollowed_cons _ _ _ (by simp) (DataFollowed_nil _)
  | rcpt =>
    exact DataFollowed_cons _ _ _ (by simp) (DataFollowed_cons _ _ _ (by simp) (DataFollowed_nil _))
  | data =>
    exact DataFollowed_cons _ _ _ (by simp) (DataFollowed_cons _ _ _ (by simp)
      (DataFollowed_cons _ _ _ (by simp) (DataFollowed_nil _)))
  | close =>
    exact DataFollowed_cons _ _ _ (by simp) (DataFollowed_cons _ _ _ (by simp)
      (DataFollowed_data (headerLines cfg p ++ bodyChunks cfg) (some e) [] (DataFollowed_nil _)))

theorem greeting_ne_data (cfg : Config) : greeting cfg ≠ Cmd.Data := by
  unfold greeting; split <;> simp

theorem Transcript_dataFollowed (cfg : Config) (p : Process) (log : List Ev) (res : Option Err)
    (h : Transcript cfg p log res) : DataFollowed (messageWrites cfg p) log := by
  rcases h with ⟨e, _, hl⟩ | ⟨j, tail, hl, ht⟩
  · subst hl
    exact DataFollowed_cons _ _ _ (by simp) (DataFollowed_nil _)
  · subst hl
    apply DataFollowed_cons _ _ _ (by simp [greeting_ne_data])
    apply DataFollowed_cycles
    rcases ht with ⟨e, _, hf, _⟩ | ⟨_, ht⟩
    · exact DataFollowed_failTail cfg p e tail hf
    · subst ht
      exact DataFollowed_cons _ _ _ (by simp) (DataFollowed_nil _)

theorem Transcript_data_pos (cfg : Config) (p : Process) (log : List Ev) (res : Option Err)
    (h : Transcript cfg p log res) (hd : Ev.cmd Cmd.Data none ∈ log) : 1 ≤ cfg.MessageCount := by
  by_contra hc
  have hk : messagesPerConnection cfg = 0 := by
    have : cfg.MessageCount.toNat = 0 := by omega
    simp [messagesPerConnection, loopBound, this]
  rcases h with ⟨e, _, hl⟩ | ⟨j, tail, hl, ht⟩
  · subst hl; simp at hd
  · rw [hk] at ht
    rcases ht with ⟨e, _, _, hlt⟩ | ⟨hj, ht⟩
    · omega
    · subst hj ht hl
      simp [cycles] at hd
      exact greeting_ne_data cfg hd.symm

theorem written_append (a b : List Ev) : written (a ++ b) = written a ++ written b := by
  simp [written]

theorem fillChunks_succ (n : Nat) :
    fillChunks 1 (n + 1) = fillChunks 1 n ++ ("X" :: (if (1 + n) % 80 = 0 then ["\n"] else [])) := by
  simp [fillChunks, List.range'_1_concat]

theorem written_fillChunks (n : Nat) :
    (written ((fillChunks 1 n).map Ev.write)).count 'X' = n ∧
    (written ((fillChunks 1 n).map Ev.write)).count '\n' = n / 80 ∧
    (written ((fillChunks 1 n).map Ev.write)).length = n + n / 80 := by
  induction n with
  | zero => simp [fillChunks, written]
  | succ n ih =>
    obtain ⟨h1, h2, h3⟩ := ih
    rw [fillChunks_succ, List.map_append, written_append, List.count_append, List.count_append,
      List.length_append, h1, h2, h3]
    by_cases hm : (1 + n) % 80 = 0
    · simp only [hm, if_true]
      refine ⟨?_, ?_, ?_⟩
      · simp [written]
      · have : List.count '\n' (written (List.map Ev.write ["X", "\n"])) = 1 := by
          simp [written]
        rw [this]; omega
      · have : (written (List.map Ev.write ["X", "\n"])).length = 2 := by
          simp [written]
        rw [this]; omega
    · simp only [hm, if_false]
      refine ⟨?_, ?_, ?_⟩
      · simp [written]
      · have : List.count '\n' (written (List.map Ev.write ["X"])) = 0 := by
          simp [written]
        rw [this]; omega
      · have : (written (List.map Ev.write ["X"])).length = 1 := by
          simp [written]
        rw [this]; omega

theorem hexVal_digitChar (d : Nat) (h : d < 16) : hexVal (Nat.digitChar d) = some d := by
  interval_cases d <;> decide

theorem parseHexFrom_append (a b : List Char) : ∀ acc,
    parseHexFrom acc (a ++ b) = (parseHexFrom acc a).bind fun v => parseHexFrom v b := by
  induction a with
  | nil => intro acc; simp [parseHexFrom]
  | cons c a ih =>
    intro acc
    simp only [List.cons_append, parseHexFrom]
    cases hexVal c with
    | none => simp
    | some d => simp [ih]

theorem parseHex_hexDigits (n : Nat) : parseHexFrom 0 (hexDigits n) = some n := by
  induction n using Nat.strong_induction_on with
  | _ n ih =>
    rw [hexDigits]
    by_cases h : n < 16
    · simp [h, parseHexFrom, hexVal_digitChar n h]
    · simp only [h, if_false]
      rw [parseHexFrom_append, ih (n / 16) (by omega)]
      simp only [Option.some_bind, parseHexFrom, hexVal_digitChar (n % 16) (by omega)]
      congr 1; omega

theorem parseHexFrom_zeros (k : Nat) (l : List Char) :
    parseHexFrom 0 (List.replicate k '0' ++ l) = parseHexFrom 0 l := by
  induction k with
  | zero => simp
  | succ k ih =>
    have : hexVal '0' = some 0 := by decide
    simp [List.replicate_succ, parseHexFrom, this, ih]

theorem hexDigits_ne_nil (n : Nat) : hexDigits n ≠ [] := by
  rw [hexDigits]; split <;> simp

theorem hexDigits_head (n : Nat) (hn : n ≠ 0) : (hexDigits n).head? ≠ some '0' := by
  induction n using Nat.strong_induction_on with
  | _ n ih =>
    rw [hexDigits]
    by_cases h : n < 16
    · simp only [h, if_true, List.head?_cons]
      interval_cases n <;> first | exact absurd rfl hn | decide
    · simp only [h, if_false]
      have := ih (n / 16) (by omega) (by omega)
      cases hd : hexDigits (n / 16) with
      | nil => exact absurd hd (hexDigits_ne_nil _)
      | cons x xs => rw [hd] at this; simpa using this

/-- The text `%04x` gives for a non-negative number: it reads back as the
number, has at least four digits, and starts with `0` only when it has
exactly four digits. -/
theorem fmtHex04_spec (v : Int) (hv : 0 ≤ v) :
    parseHex (fmtHex04 v).data = some v.toNat ∧ 4 ≤ (fmtHex04 v).length ∧
    (4 < (fmtHex04 v).length → (fmtHex04 v).data.head? ≠ some '0') := by
  have hn : ¬ v < 0 := by omega
  have hnat : v.natAbs = v.toNat := by omega
  simp only [fmtHex04, hn, if_false, parseHex, String.length, hnat]
  refine ⟨?_, ?_, ?_⟩
  · rw [parseHexFrom_zeros, parseHex_hexDigits]
  · simp; omega
  · intro hl
    simp only [List.length_append, List.length_replicate] at hl
    have hz : 4 - (hexDigits v.toNat).length = 0 := by omega
    rw [hz]
    simp only [List.replicate_zero, List.nil_append]
    apply hexDigits_head
    intro h0
    rw [h0] at hl
    rw [hexDigits] at hl
    simp at hl

theorem Answers_split (srv : Server) (pre post : List Ev) (c : Cmd) (x : Option Err) :
    ∀ hist, Answers srv hist (pre ++ Ev.cmd c x :: post) → x = srv (hist ++ pre) c := by
  intro hist h
  rw [Answers_append] at h
  exact h.2.1

theorem Answers_noFail (srv : Server) (hok : ∀ hist c, srv hist c = none) (l : List Ev) :
    ∀ hist, Answers srv hist l → NoFail l := by
  induction l with
  | nil => intro _ _ ev hev; simp at hev
  | cons a l ih =>
    intro hist h ev hev
    cases a with
    | cmd c r =>
      simp only [Answers] at h
      rcases List.mem_cons.mp hev with rfl | hm
      · rw [h.1, hok]; rfl
      · exact ih _ h.2 ev hm
    | write t =>
      simp only [Answers] at h
      rcases List.mem_cons.mp hev with rfl | hm
      · rfl
      · exact ih _ h ev hm

theorem NoFail_append (a b : List Ev) : NoFail (a ++ b) ↔ NoFail a ∧ NoFail b := by
  simp [NoFail, or_imp, forall_and]

theorem NoFail_cons (x : Ev) (l : List Ev) : NoFail (x :: l) ↔ x.failed = false ∧ NoFail l := by
  simp [NoFail]

theorem NoFail_writes (ws : List String) : NoFail (ws.map Ev.write) := by
  intro ev hev
  obtain ⟨w, _, rfl⟩ := List.mem_map.mp hev
  rfl

theorem NoFail_cycles (cfg : Config) (p : Process) : ∀ j, NoFail (cycles cfg p j) := by
  intro j
  induction j with
  | zero => intro ev hev; simp [cycles] at hev
  | succ j ih =>
    simp only [cycles, cycle, messageWrites, List.cons_append, NoFail_cons, NoFail_append]
    exact ⟨rfl, rfl, rfl, ⟨NoFail_writes _, by simp [NoFail, Ev.failed]⟩, ih⟩

theorem FailTail_split (cfg : Config) (p : Process) (e : Err) (tail : List Ev)
    (h : FailTail cfg p e tail) : ∃ t c, tail = t ++ [Ev.cmd c (some e)] ∧ NoFail t := by
  cases h with
  | mail => exact ⟨[], _, rfl, by simp [NoFail]⟩
  | rcpt => exact ⟨[_], _, rfl, by simp [NoFail, Ev.failed]⟩
  | data => exact ⟨[_, _], _, rfl, by simp [NoFail, Ev.failed]⟩
  | close =>
    refine ⟨Ev.cmd (Cmd.Mail cfg.Sender) none :: Ev.cmd (Cmd.Rcpt cfg.Recipient) none ::
      Ev.cmd Cmd.Data none :: messageWrites cfg p, Cmd.Close, by simp, ?_⟩
    simp only [NoFail_cons, messageWrites]
    exact ⟨rfl, rfl, rfl, NoFail_writes _⟩

theorem failed_last (a : List Ev) (c0 : Cmd) (e0 : Err) (ha : NoFail a) :
    ∀ (pre post : List Ev) (c : Cmd) (e : Err),
      a ++ [Ev.cmd c0 (some e0)] = pre ++ Ev.cmd c (some e) :: post → post = [] ∧ e = e0 := by
  induction a with
  | nil =>
    intro pre post c e h
    cases pre with
    | nil => simp at h; exact ⟨h.2, h.1.2.symm⟩
    | cons y pre => simp at h
  | cons x a ih =>
    intro pre post c e h
    rw [NoFail_cons] at ha
    cases pre with
    | nil =>
      simp at h
      rw [h.1] at ha
      simp [Ev.failed] at ha
    | cons y pre =>
      simp only [List.cons_append, List.cons.injEq] at h
      exact ih ha.2 pre post c e h.2

theorem noFail_no_failed (l : List Ev) (hl : NoFail l) (pre post : List Ev) (c : Cmd) (e : Err)
    (h : l = pre ++ Ev.cmd c (some e) :: post) : False := by
  have := hl (Ev.cmd c (some e)) (by rw [h]; simp)
  simp [Ev.failed] at this

/-- The shape of a transcript as a list: either no command failed and the call
returned `nil`, or exactly the last entry is a failed command and the call
returned its error. -/
theorem Transcript_cases (cfg : Config) (p : Process) (log : List Ev) (res : Option Err)
    (h : Transcript cfg p log res) :
    (res = none ∧ NoFail log) ∨
    (∃ a c e, res = some e ∧ log = a ++ [Ev.cmd c (some e)] ∧ NoFail a) := by
  rcases h with ⟨e, hr, hl⟩ | ⟨j, tail, hl, ht⟩
  · exact Or.inr ⟨[], _, e, hr, by simpa using hl, by simp [NoFail]⟩
  · rcases ht with ⟨e, hr, hf, _⟩ | ⟨_, ht⟩
    · obtain ⟨t, c, rfl, hn⟩ := FailTail_split cfg p e tail hf
      refine Or.inr ⟨Ev.cmd (greeting cfg) none :: (cycles cfg p j ++ t), c, e, hr, by simp [hl], ?_⟩
      rw [NoFail_cons, NoFail_append]
      exact ⟨rfl, NoFail_cycles cfg p j, hn⟩
    · subst ht
      cases res with
      | none =>
        refine Or.inl ⟨rfl, ?_⟩
        rw [hl, NoFail_cons, NoFail_append]
        exact ⟨rfl, NoFail_cycles cfg p j, by simp [NoFail, Ev.failed]⟩
      | some e =>
        refine Or.inr ⟨Ev.cmd (greeting cfg) none :: cycles cfg p j, Cmd.Quit, e, rfl,
          by simp [hl], ?_⟩
        rw [NoFail_cons]
        exact ⟨rfl, NoFail_cycles cfg p j⟩

theorem Faithful_fresh (srv : Server) : Faithful { srv := srv, log := [] } := by
  simp [Faithful, Answers]

/-- The transcript of a call on a fresh connection. -/
theorem SendMail_fresh (cfg : Config) (p : Process) (srv : Server) :
    Answers srv [] (SendMail cfg p { srv := srv, log := [] }).1.log ∧
    Transcript cfg p (SendMail cfg p { srv := srv, log := [] }).1.log
      (SendMail cfg p { srv := srv, log := [] }).2 := by
  obtain ⟨hs, hf, suf, hlog, ht⟩ := SendMail_spec cfg p { srv := srv, log := [] }
  have := hf (Faithful_fresh srv)
  unfold Faithful at this
  rw [hs] at this
  simp only [List.nil_append] at hlog
  rw [hlog]
  rw [hlog] at this
  exact ⟨this, ht⟩

/-- When every command succeeds the call returns `nil` after the greeting,
all messages of the connection and QUIT. -/
theorem SendMail_ok (cfg : Config) (p : Process) (srv : Server)
    (hok : ∀ hist c, srv hist c = none) :
    (SendMail cfg p { srv := srv, log := [] }).2 = none ∧
    (SendMail cfg p { srv := srv, log := [] }).1.log =
      Ev.cmd (greeting cfg) none ::
        (cycles cfg p (messagesPerConnection cfg) ++ [Ev.cmd Cmd.Quit none]) := by
  obtain ⟨ha, ht⟩ := SendMail_fresh cfg p srv
  have hn := Answers_noFail srv hok _ _ ha
  generalize (SendMail cfg p { srv := srv, log := [] }).2 = res at ht ⊢
  generalize (SendMail cfg p { srv := srv, log := [] }).1.log = log at ht hn ⊢
  rcases ht with ⟨e, hr, hl⟩ | ⟨j, tail, hl, ht⟩
  · exact (noFail_no_failed log hn [] [] _ e (by simpa using hl)).elim
  · rcases ht with ⟨e, hr, hf, _⟩ | ⟨hj, ht⟩
    · obtain ⟨t, c, rfl, _⟩ := FailTail_split cfg p e tail hf
      exact (noFail_no_failed log hn (Ev.cmd (greeting cfg) none :: (cycles cfg p j ++ t)) [] c e
        (by simp [hl])).elim
    · subst hj ht
      cases res with
      | none => exact ⟨rfl, hl⟩
      | some e =>
        exact (noFail_no_failed log hn (Ev.cmd (greeting cfg) none ::
          cycles cfg p (messagesPerConnection cfg)) [] Cmd.Quit e (by simp [hl])).elim

theorem commands_append (a b : List Ev) : commands (a ++ b) = commands a ++ commands b := by
  simp [commands]

theorem commands_writes (ws : List String) : commands (ws.map Ev.write) = [] := by
  induction ws with
  | nil => rfl
  | cons w ws ih => simp [commands]

theorem commands_cycles (cfg : Config) (p : Process) : ∀ j,
    commands (cycles cfg p j) = (List.replicate j (cycleCommands cfg)).flatten := by
  intro j
  induction j with
  | zero => rfl
  | succ j ih =>
    rw [cycles, commands_append, ih, List.replicate_succ, List.flatten_cons]
    congr 1
    have := commands_writes (headerLines cfg p ++ bodyChunks cfg)
    simp only [cycle, messageWrites, cycleCommands]
    simp only [commands, List.filterMap_cons, List.filterMap_append, List.filterMap_nil] at this ⊢
    rw [this]; rfl

/-! ## Lemmas on `Kick` -/

theorem KickLoop_eq (cfg : Config) (net : Network) (mc : Int) (k : Nat) : ∀ (i : Nat),
    (mc - (i : Int)).toNat = k →
    KickLoop cfg net mc i = (List.range' i k).flatMap (kickBlock cfg net) := by
  induction k with
  | zero =>
    intro i h
    rw [KickLoop]
    have : ¬ ((i : Int) < mc) := by omega
    simp [this]
  | succ k ih =>
    intro i h
    rw [KickLoop]
    have hlt : (i : Int) < mc := by omega
    have hcast : ((i : Int) + 1) = ((i + 1 : Nat) : Int) := by push_cast; rfl
    simp only [hlt, if_true, Int.toNat_ofNat, hcast]
    rw [ih (i + 1) (by omega), List.range'_succ, List.flatMap_cons, kickBlock]
    cases Dial net cfg.Host i <;> rfl

theorem Kick_eq (cfg : Config) (net : Network) :
    Kick cfg net = (List.range' 0 (attempts cfg)).flatMap (kickBlock cfg net) := by
  unfold Kick attempts
  have := KickLoop_eq cfg net (if cfg.DontDisc then 1 else cfg.MessageCount)
    ((if cfg.DontDisc then (1 : Int) else cfg.MessageCount) - ((0 : Nat) : Int)).toNat 0 rfl
  simp only [Nat.cast_zero] at this
  rw [this]
  congr 2
  split <;> simp

theorem dialCount_blocks (cfg : Config) (net : Network) (l : List Nat) :
    dialCount (l.flatMap (kickBlock cfg net)) = l.length := by
  induction l with
  | nil => rfl
  | cons n l ih =>
    unfold dialCount at *
    rw [List.flatMap_cons, List.countP_append, ih, List.length_cons, kickBlock]
    cases Dial net cfg.Host n <;> simp [KickOp.isDial] <;> omega

theorem dialCount_Kick (cfg : Config) (net : Network) :
    dialCount (Kick cfg net) = attempts cfg := by
  rw [Kick_eq, dialCount_blocks]; simp

theorem Kick_handle_fresh (cfg : Config) (net : Network) (c : Client)
    (h : KickOp.sendQueue c ∈ Kick cfg net) : ∃ srv, c = { srv := srv, log := [] } := by
  rw [Kick_eq] at h
  obtain ⟨n, _, hn⟩ := List.mem_flatMap.mp h
  unfold kickBlock Dial at hn
  cases hd : net cfg.Host n with
  | error err => simp [hd] at hn
  | ok srv =>
    simp [hd] at hn
    exact ⟨srv, hn⟩

/-! ## Counting messages in a transcript -/

theorem mailCount_append (a b : List Ev) : mailCount (a ++ b) = mailCount a + mailCount b := by
  simp [mailCount]

theorem sentCount_append (a b : List Ev) : sentCount (a ++ b) = sentCount a + sentCount b := by
  simp [sentCount]

theorem mailCount_writes (ws : List String) : mailCount (ws.map Ev.write) = 0 := by
  induction ws with
  | nil => rfl
  | cons w ws ih => simp [mailCount]

theorem sentCount_writes (ws : List String) : sentCount (ws.map Ev.write) = 0 := by
  induction ws with
  | nil => rfl
  | cons w ws ih => simp [sentCount]

theorem mailCount_cycle (cfg : Config) (p : Process) : mailCount (cycle cfg p) = 1 := by
  have := mailCount_writes (headerLines cfg p ++ bodyChunks cfg)
  simp only [cycle, messageWrites]
  simp only [mailCount, List.countP_cons, List.countP_append, List.countP_nil] at this ⊢
  rw [this]; rfl

theorem sentCount_cycle (cfg : Config) (p : Process) : sentCount (cycle cfg p) = 1 := by
  have := sentCount_writes (headerLines cfg p ++ bodyChunks cfg)
  simp only [cycle, messageWrites]
  simp only [sentCount, List.countP_cons, List.countP_append, List.countP_nil] at this ⊢
  rw [this]; rfl

theorem counts_cycles (cfg : Config) (p : Process) : ∀ j,
    mailCount (cycles cfg p j) = j ∧ sentCount (cycles cfg p j) = j := by
  intro j
  induction j with
  | zero => exact ⟨rfl, rfl⟩
  | succ j ih =>
    rw [cycles, mailCount_append, sentCount_append, mailCount_cycle, sentCount_cycle, ih.1, ih.2]
    omega

theorem counts_failTail (cfg : Config) (p : Process) (e : Err) (tail : List Ev)
    (h : FailTail cfg p e tail) : mailCount tail = 1 ∧ sentCount tail = 0 := by
  cases h with
  | mail => exact ⟨rfl, rfl⟩
  | rcpt => exact ⟨rfl, rfl⟩
  | data => exact ⟨rfl, rfl⟩
  | close =>
    have h1 := mailCount_writes (headerLines cfg p ++ bodyChunks cfg)
    have h2 := sentCount_writes (headerLines cfg p ++ bodyChunks cfg)
    simp only [messageWrites]
    simp only [mailCount, sentCount, List.countP_cons, List.countP_append, List.countP_nil]
      at h1 h2 ⊢
    rw [h1, h2]; exact ⟨rfl, rfl⟩

theorem greeting_counts (cfg : Config) (r : Option Err) :
    mailCount [Ev.cmd (greeting cfg) r] = 0 ∧ sentCount [Ev.cmd (greeting cfg) r] = 0 := by
  unfold greeting
  split <;> exact ⟨rfl, rfl⟩

/-- In every transcript at most `messagesPerConnection` messages are started,
and no more are sent than started. -/
theorem Transcript_counts (cfg : Config) (p : Process) (log : List Ev) (res : Option Err)
    (h : Transcript cfg p log res) :
    mailCount log ≤ messagesPerConnection cfg ∧ sentCount log ≤ mailCount log := by
  rcases h with ⟨e, _, hl⟩ | ⟨j, tail, hl, ht⟩
  · subst hl
    have := greeting_counts cfg (some e)
    omega
  · have hg := greeting_counts cfg none
    have hc := counts_cycles cfg p j
    have e1 : mailCount log = mailCount [Ev.cmd (greeting cfg) none] +
        (mailCount (cycles cfg p j) + mailCount tail) := by
      rw [hl, ← mailCount_append, ← mailCount_append]; rfl
    have e2 : sentCount log = sentCount [Ev.cmd (greeting cfg) none] +
        (sentCount (cycles cfg p j) + sentCount tail) := by
      rw [hl, ← sentCount_append, ← sentCount_append]; rfl
    rcases ht with ⟨e, _, hf, hlt⟩ | ⟨hj, ht⟩
    · have := counts_failTail cfg p e tail hf
      omega
    · subst ht
      have h1 : mailCount [Ev.cmd Cmd.Quit res] = 0 := rfl
      have h2 : sentCount [Ev.cmd Cmd.Quit res] = 0 := by cases res <;> rfl
      omega

/-! ## QUIT comes last -/

theorem quit_last (l : List Ev) (res : Option Err) (hl : ∀ r, Ev.cmd Cmd.Quit r ∉ l) :
    ∀ (pre post : List Ev) (r : Option Err),
      l ++ [Ev.cmd Cmd.Quit res] = pre ++ Ev.cmd Cmd.Quit r :: post → post = [] := by
  induction l with
  | nil =>
    intro pre post r h
    cases pre with
    | nil => simp at h; exact h.2
    | cons y pre => simp at h
  | cons x l ih =>
    intro pre post r h
    cases pre with
    | nil =>
      simp at h
      exact absurd (List.mem_cons_self _ _) (h.1 ▸ hl r)
    | cons y pre =>
      simp only [List.cons_append, List.cons.injEq] at h
      exact ih (fun r hr => hl r (List.mem_cons_of_mem _ hr)) pre post r h.2

theorem quit_not_mem_cycles (cfg : Config) (p : Process) : ∀ j r,
    Ev.cmd Cmd.Quit r ∉ cycles cfg p j := by
  intro j
  induction j with
  | zero => intro r; simp [cycles]
  | succ j ih =>
    intro r
    simp [cycles, cycle, messageWrites, ih]

theorem quit_not_mem_failTail (cfg : Config) (p : Process) (e : Err) (tail : List Ev)
    (h : FailTail cfg p e tail) (r : Option Err) : Ev.cmd Cmd.Quit r ∉ tail := by
  cases h <;> simp [messageWrites]

theorem greeting_ne_quit (cfg : Config) : greeting cfg ≠ Cmd.Quit := by
  unfold greeting; split <;> simp

/-- In every transcript nothing follows QUIT. -/
theorem Transcript_quit_last (cfg : Config) (p : Process) (log : List Ev) (res : Option Err)
    (h : Transcript cfg p log res) (pre post : List Ev) (r : Option Err)
    (hlog : log = pre ++ Ev.cmd Cmd.Quit r :: post) : post = [] := by
  have hmem : Ev.cmd Cmd.Quit r ∈ log := by rw [hlog]; simp
  rcases h with ⟨e, _, hl⟩ | ⟨j, tail, hl, ht⟩
  · rw [hl] at hmem
    simp at hmem
    exact absurd hmem.1.symm (greeting_ne_quit cfg)
  · rcases ht with ⟨e, _, hf, _⟩ | ⟨_, ht⟩
    · rw [hl] at hmem
      simp only [List.mem_cons, List.mem_append, Ev.cmd.injEq] at hmem
      rcases hmem with h1 | h1 | h1
      · exact absurd h1.1.symm (greeting_ne_quit cfg)
      · exact absurd h1 (quit_not_mem_cycles cfg p j r)
      · exact absurd h1 (quit_not_mem_failTail cfg p e tail hf r)
    · subst ht
      apply quit_last (Ev.cmd (greeting cfg) none :: cycles cfg p j) res _ pre post r
      · rw [← hlog, hl]; simp
      · intro r' hr'
        simp only [List.mem_cons, Ev.cmd.injEq] at hr'
        rcases hr' with h1 | h1
        · exact absurd h1.1.symm (greeting_ne_quit cfg)
        · exact absurd h1 (quit_not_mem_cycles cfg p j r')

/-! ## Lemmas on the running program -/

theorem mem_handOffs (s : State) (c : Client) (rest : List KickOp) (s' : State) :
    s' ∈ handOffs s c rest ↔
      ∃ w, s.workers.get? w = some WorkerPc.recv ∧
        s' = { s with kick := rest, workers := s.workers.set w (WorkerPc.run c)
                      trace := s.trace ++ [Obs.handOff w] } := by
  unfold handOffs
  simp only [List.mem_filterMap, List.mem_range]
  constructor
  · rintro ⟨w, _, hw⟩
    refine ⟨w, ?_⟩
    split at hw
    · rename_i heq
      exact ⟨heq, by injection hw with hw; exact hw.symm⟩
    · cases hw
  · rintro ⟨w, hw, rfl⟩
    refine ⟨w, ?_, by rw [hw]⟩
    by_contra hlt
    rw [List.get?_eq_none.mpr (by omega)] at hw
    cases hw

theorem mem_workerSteps (cfg : Config) (p : Process) (s s' : State) :
    s' ∈ workerSteps cfg p s ↔
      ∃ w pc, s.workers.get? w = some pc ∧ s' ∈ Worker cfg p s w pc := by
  unfold workerSteps
  simp only [List.mem_flatMap, List.mem_range]
  constructor
  · rintro ⟨w, _, hw⟩
    split at hw
    · rename_i pc heq
      exact ⟨w, pc, heq, hw⟩
    · simp at hw
  · rintro ⟨w, pc, hw, hmem⟩
    refine ⟨w, ?_, by rw [hw]; exact hmem⟩
    by_contra hlt
    rw [List.get?_eq_none.mpr (by omega)] at hw
    cases hw

theorem next_eq (cfg : Config) (p : Process) (s : State) (m : MainOp) (ms : List MainOp)
    (hm : s.main = m :: ms) :
    next cfg p s = kickSteps s ++ workerSteps cfg p s ++ mainSteps s := by
  unfold next
  split
  · rename_i h; rw [hm] at h; cases h
  · rfl

theorem mem_next_iff (cfg : Config) (p : Process) (s s' : State) :
    s' ∈ next cfg p s ↔ Step cfg p s s' := by
  constructor
  · intro h
    unfold next at h
    split at h
    · simp at h
    · rename_i m ms hm
      simp only [List.mem_append] at h
      rcases h with (h | h) | h
      · unfold kickSteps at h
        split at h
        · simp at h
        · rename_i ok rest hk
          simp only [List.mem_singleton] at h
          subst h
          exact Step.dial s m ms ok rest hm hk
        · rename_i err rest hk
          simp only [List.mem_singleton] at h
          subst h
          exact Step.logPrint s m ms err rest hm hk
        · rename_i rest hk
          split at h
          · rename_i hb
            simp only [List.mem_singleton] at h
            subst h
            exact Step.kickDone s m ms rest hm hk hb
          · simp at h
        · rename_i c rest hk
          obtain ⟨w, hw, rfl⟩ := (mem_handOffs s c rest s').mp h
          exact Step.handOff s m ms c rest w hm hk hw
      · obtain ⟨w, pc, hw, hmem⟩ := (mem_workerSteps cfg p s s').mp h
        cases pc with
        | recv => simp [Worker] at hmem
        | run c =>
          simp only [Worker, List.mem_singleton] at hmem
          subst hmem
          exact Step.sendMail s m ms w c hm hw
        | send =>
          simp only [Worker] at hmem
          split at hmem
          · rename_i hb
            simp only [List.mem_singleton] at hmem
            subst hmem
            exact Step.workerDone s m ms w hm hw hb
          · simp at hmem
      · unfold mainSteps at h
        split at h
        · simp at h
        · rename_i rest hk
          split at h
          · rename_i hb
            simp only [List.mem_singleton] at h
            subst h
            exact Step.mainRecv s rest hk hb
          · simp at h
  · intro h
    cases h with
    | dial m ms ok rest hm hk =>
      rw [next_eq cfg p s m ms hm]
      simp [kickSteps, hk]
    | logPrint m ms err rest hm hk =>
      rw [next_eq cfg p s m ms hm]
      simp [kickSteps, hk]
    | kickDone m ms rest hm hk hb =>
      rw [next_eq cfg p s m ms hm]
      simp [kickSteps, hk, hb]
    | handOff m ms c rest w hm hk hw =>
      rw [next_eq cfg p s m ms hm]
      simp only [List.mem_append]
      refine Or.inl (Or.inl ?_)
      simp only [kickSteps, hk]
      exact (mem_handOffs s c rest _).mpr ⟨w, hw, rfl⟩
    | sendMail m ms w c hm hw =>
      rw [next_eq cfg p s m ms hm]
      simp only [List.mem_append]
      refine Or.inl (Or.inr ?_)
      exact (mem_workerSteps cfg p s _).mpr ⟨w, _, hw, by simp [Worker]⟩
    | workerDone m ms w hm hw hb =>
      rw [next_eq cfg p s m ms hm]
      simp only [List.mem_append]
      refine Or.inl (Or.inr ?_)
      exact (mem_workerSteps cfg p s _).mpr ⟨w, _, hw, by simp [Worker, hb]⟩
    | mainRecv rest hm hb =>
      rw [next_eq cfg p s _ rest hm]
      simp only [List.mem_append]
      refine Or.inr ?_
      simp [mainSteps, hm, hb]

theorem LaunchLoop_eq (cfg : Config) (k : Nat) : ∀ i : Int, (cfg.Sessions - i).toNat = k →
    LaunchLoop cfg i = List.replicate k WorkerPc.recv := by
  induction k with
  | zero =>
    intro i h
    rw [LaunchLoop]
    have : ¬ (i < cfg.Sessions) := by omega
    simp [this]
  | succ k ih =>
    intro i h
    rw [LaunchLoop]
    have : i < cfg.Sessions := by omega
    simp only [this, if_true, List.replicate_succ]
    rw [ih (i + 1) (by omega)]

theorem Launch_eq (cfg : Config) : Launch cfg = List.replicate cfg.Sessions.toNat WorkerPc.recv := by
  unfold Launch
  exact LaunchLoop_eq cfg _ 0 (by simp)

theorem mainLoop_length (cfg : Config) (k : Nat) : ∀ i : Int, (cfg.MessageCount - i).toNat = k →
    (mainLoop cfg i).length = if cfg.DontDisc then min 1 k else k := by
  induction k with
  | zero =>
    intro i h
    rw [mainLoop]
    have : ¬ (i < cfg.MessageCount) := by omega
    simp [this]
  | succ k ih =>
    intro i h
    rw [mainLoop]
    have : i < cfg.MessageCount := by omega
    simp only [this, if_true]
    cases hd : cfg.DontDisc with
    | true => simp
    | false =>
      have := ih (i + 1) (by omega)
      simp [hd] at this ⊢
      exact this

theorem mainLoop_length_zero (cfg : Config) (hm : 1 ≤ cfg.MessageCount) :
    (mainLoop cfg 0).length = attempts cfg := by
  rw [mainLoop_length cfg cfg.MessageCount.toNat 0 (by simp), attempts]
  split
  · omega
  · rfl

theorem poolSum_replicate_recv (f : WorkerPc → Nat) (hf : f WorkerPc.recv = 0) (k : Nat) :
    poolSum f (List.replicate k WorkerPc.recv) = 0 := by
  induction k with
  | zero => rfl
  | succ k ih =>
    unfold poolSum at *
    simp [List.replicate_succ, hf]

theorem poolSum_set (f : WorkerPc → Nat) (x y : WorkerPc) : ∀ (ws : List WorkerPc) (w : Nat),
    ws.get? w = some y → poolSum f (ws.set w x) + f y = poolSum f ws + f x := by
  intro ws
  induction ws with
  | nil => intro w h; simp at h
  | cons a ws ih =>
    intro w h
    cases w with
    | zero =>
      simp at h
      subst h
      simp [poolSum]; omega
    | succ w =>
      simp at h
      have := ih w (by simpa using h)
      simp [poolSum] at this ⊢
      omega

theorem main_some (cfg : Config) (net : Network) (hm : 0 ≤ cfg.MessageCount) :
    main cfg net = some
      { kick := Kick cfg net, workers := Launch cfg, main := mainLoop cfg 0, doneBuf := 0
        doneCap := cfg.MessageCount.toNat, trace := [] } := by
  have h : ¬ cfg.MessageCount < 0 := by omega
  simp [main, mainChans, makeChan, h]

theorem Inv_init (cfg : Config) (net : Network) (hm : 1 ≤ cfg.MessageCount) :
    Inv cfg net
      { kick := Kick cfg net, workers := Launch cfg, main := mainLoop cfg 0, doneBuf := 0
        doneCap := cfg.MessageCount.toNat, trace := [] } where
  cap := rfl
  pool := by simp [Launch_eq]
  kick := ⟨0, [], 0, 0, by simp [Kick_eq], Nat.zero_le _, Partial.idle, rfl, rfl, rfl⟩
  work := by
    simp only [Launch_eq]
    rw [poolSum_replicate_recv _ rfl]; rfl
  buf := rfl
  wait := by
    show (mainLoop cfg 0).length + 0 = attempts cfg
    rw [mainLoop_length_zero cfg hm]; rfl

/-- The first operation of the blocks that `Kick` has not begun is a dial. -/
theorem blocks_head (cfg : Config) (net : Network) (m k : Nat) (op : KickOp) (rest : List KickOp)
    (h : (List.range' m k).flatMap (kickBlock cfg net) = op :: rest) :
    ∃ k', k = k' + 1 ∧
      ((∃ err, op = KickOp.dial false ∧
          rest = KickOp.logPrint err :: KickOp.sendDone ::
            (List.range' (m + 1) k').flatMap (kickBlock cfg net)) ∨
        (∃ c, op = KickOp.dial true ∧
          rest = KickOp.sendQueue c ::
            (List.range' (m + 1) k').flatMap (kickBlock cfg net))) := by
  cases k with
  | zero => simp at h
  | succ k' =>
    refine ⟨k', rfl, ?_⟩
    rw [List.range'_succ, List.flatMap_cons, kickBlock] at h
    cases hd : Dial net cfg.Host m with
    | error err =>
      rw [hd] at h
      simp only [List.cons_append, List.nil_append, List.cons.injEq] at h
      exact Or.inl ⟨err, h.1.symm, h.2.symm⟩
    | ok c =>
      rw [hd] at h
      simp only [List.cons_append, List.nil_append, List.cons.injEq] at h
      exact Or.inr ⟨c, h.1.symm, h.2.symm⟩

theorem Inv_step (cfg : Config) (net : Network) (p : Process) (s s' : State)
    (hi : Inv cfg net s) (hstep : Step cfg p s s') : Inv cfg net s' := by
  obtain ⟨hcap, hpool, ⟨m, part, pd, pq, hk, hle, hpart, hfd, hod, hdm⟩, hwork, hbuf, hwait⟩ := hi
  cases hstep with
  | dial mo ms ok rest hm hkick =>
    rw [hkick] at hk
    cases hpart with
    | idle =>
      obtain ⟨k', hk', hcase⟩ := blocks_head cfg net m _ _ _ hk.symm
      rcases hcase with ⟨err, hop, hrest⟩ | ⟨c, hop, hrest⟩
      · injection hop with hop
        subst hop
        refine ⟨hcap, hpool, ⟨m + 1, _, 1, 0, ?_, by omega, Partial.log err, ?_, ?_, ?_⟩,
          ?_, ?_, ?_⟩
        · have : attempts cfg - (m + 1) = k' := by omega
          simp [hrest, this]
        all_goals
          simp only [failedDials, okDials, kickSignals, handOffCount, workerSignals, recvCount,
            List.countP_append, List.countP_cons, List.countP_nil] at *
          simp
          omega
      · injection hop with hop
        subst hop
        refine ⟨hcap, hpool, ⟨m + 1, _, 0, 1, ?_, by omega, Partial.queue c, ?_, ?_, ?_⟩,
          ?_, ?_, ?_⟩
        · have : attempts cfg - (m + 1) = k' := by omega
          simp [hrest, this]
        all_goals
          simp only [failedDials, okDials, kickSignals, handOffCount, workerSignals, recvCount,
            List.countP_append, List.countP_cons, List.countP_nil] at *
          simp
          omega
    | log err => simp at hk
    | done => simp at hk
    | queue c => simp at hk
  | logPrint mo ms err rest hm hkick =>
    rw [hkick] at hk
    cases hpart with
    | idle =>
      obtain ⟨k', _, hcase⟩ := blocks_head cfg net m _ _ _ hk.symm
      rcases hcase with ⟨_, hop, _⟩ | ⟨_, hop, _⟩ <;> cases hop
    | log err' =>
      simp only [List.cons_append, List.nil_append, List.cons.injEq] at hk
      exact ⟨hcap, hpool, ⟨m, _, 1, 0, hk.2, hle, Partial.done, hfd, hod, hdm⟩,
        hwork, hbuf, hwait⟩
    | done => simp at hk
    | queue c => simp at hk
  | kickDone mo ms rest hm hkick hb =>
    rw [hkick] at hk
    cases hpart with
    | idle =>
      obtain ⟨k', _, hcase⟩ := blocks_head cfg net m _ _ _ hk.symm
      rcases hcase with ⟨_, hop, _⟩ | ⟨_, hop, _⟩ <;> cases hop
    | log err' => simp at hk
    | done =>
      simp only [List.cons_append, List.nil_append, List.cons.injEq, true_and] at hk
      refine ⟨hcap, hpool, ⟨m, [], 0, 0, by simpa using hk, hle, Partial.idle, ?_, ?_, ?_⟩,
        ?_, ?_, ?_⟩
      all_goals
        simp only [failedDials, okDials, kickSignals, handOffCount, workerSignals, recvCount,
          List.countP_append, List.countP_cons, List.countP_nil] at *
        simp
        omega
    | queue c => simp at hk
  | handOff mo ms c rest w hm hkick hw =>
    rw [hkick] at hk
    have hset := poolSum_set WorkerPc.load (WorkerPc.run c) WorkerPc.recv s.workers w hw
    simp only [WorkerPc.load] at hset
    cases hpart with
    | idle =>
      obtain ⟨k', _, hcase⟩ := blocks_head cfg net m _ _ _ hk.symm
      rcases hcase with ⟨_, hop, _⟩ | ⟨_, hop, _⟩ <;> cases hop
    | log err' => simp at hk
    | done => simp at hk
    | queue c' =>
      simp only [List.cons_append, List.nil_append, List.cons.injEq] at hk
      refine ⟨hcap, by simpa using hpool,
        ⟨m, [], 0, 0, by simpa using hk.2, hle, Partial.idle, ?_, ?_, ?_⟩, ?_, ?_, ?_⟩
      all_goals
        simp only [failedDials, okDials, kickSignals, handOffCount, workerSignals, recvCount,
          List.countP_append, List.countP_cons, List.countP_nil] at *
        simp
        omega
  | sendMail mo ms w c hm hw =>
    have hset := poolSum_set WorkerPc.load WorkerPc.send (WorkerPc.run c) s.workers w hw
    simp only [WorkerPc.load] at hset
    refine ⟨hcap, by simpa using hpool, ⟨m, part, pd, pq, hk, hle, hpart, ?_, ?_, ?_⟩,
      ?_, ?_, ?_⟩
    all_goals
      simp only [failedDials, okDials, kickSignals, handOffCount, workerSignals, recvCount,
        List.countP_append, List.countP_cons, List.countP_nil] at *
      simp
      omega
  | workerDone mo ms w hm hw hb =>
    have hset := poolSum_set WorkerPc.load WorkerPc.recv WorkerPc.send s.workers w hw
    simp only [WorkerPc.load] at hset
    refine ⟨hcap, by simpa using hpool, ⟨m, part, pd, pq, hk, hle, hpart, ?_, ?_, ?_⟩,
      ?_, ?_, ?_⟩
    all_goals
      simp only [failedDials, okDials, kickSignals, handOffCount, workerSignals, recvCount,
        List.countP_append, List.countP_cons, List.countP_nil] at *
      simp
      omega
  | mainRecv rest hm hb =>
    rw [hm] at hwait
    refine ⟨hcap, hpool, ⟨m, part, pd, pq, hk, hle, hpart, ?_, ?_, ?_⟩, ?_, ?_, ?_⟩
    all_goals
      simp only [failedDials, okDials, kickSignals, handOffCount, workerSignals, recvCount,
        List.countP_append, List.countP_cons, List.countP_nil, List.length_cons] at *
      simp
      omega

theorem Inv_reachable (cfg : Config) (net : Network) (p : Process) (s0 s : State)
    (hm : 1 ≤ cfg.MessageCount) (h0 : main cfg net = some s0) (hr : Reachable cfg p s0 s) :
    Inv cfg net s := by
  induction hr with
  | start =>
    rw [main_some cfg net (by omega)] at h0
    injection h0 with h0
    subst h0
    exact Inv_init cfg net hm
  | step _ hmem ih => exact Inv_step cfg net p _ _ ih ((mem_next_iff cfg p _ _).mp hmem)

theorem signals_eq (tr : List Obs) : signals tr = kickSignals tr + workerSignals tr := by
  induction tr with
  | nil => rfl
  | cons o tr ih =>
    simp only [signals, kickSignals, workerSignals, List.countP_cons] at ih ⊢
    cases o <;> simp <;> omega

theorem runMeasure_step (cfg : Config) (p : Process) (s s' : State) (hstep : Step cfg p s s') :
    runMeasure s' < runMeasure s := by
  cases hstep with
  | dial mo ms ok rest hm hkick => simp [runMeasure, hkick]
  | logPrint mo ms err rest hm hkick => simp [runMeasure, hkick]
  | kickDone mo ms rest hm hkick hb => simp [runMeasure, hkick]
  | handOff mo ms c rest w hm hkick hw =>
    have := poolSum_set WorkerPc.weight (WorkerPc.run c) WorkerPc.recv s.workers w hw
    simp only [WorkerPc.weight] at this
    simp only [runMeasure, hkick, List.length_cons]
    omega
  | sendMail mo ms w c hm hw =>
    have := poolSum_set WorkerPc.weight WorkerPc.send (WorkerPc.run c) s.workers w hw
    simp only [WorkerPc.weight] at this
    simp only [runMeasure]
    omega
  | workerDone mo ms w hm hw hb =>
    have := poolSum_set WorkerPc.weight WorkerPc.recv WorkerPc.send s.workers w hw
    simp only [WorkerPc.weight] at this
    simp only [runMeasure]
    omega
  | mainRecv rest hm hb => simp [runMeasure, hm]

/-- A pool in which some worker owes a signal contains a worker that is not
waiting on `queue`. -/
theorem poolSum_load_pos (ws : List WorkerPc) (h : 0 < poolSum WorkerPc.load ws) :
    ∃ w, (∃ c, ws.get? w = some (WorkerPc.run c)) ∨ ws.get? w = some WorkerPc.send := by
  induction ws with
  | nil => simp [poolSum] at h
  | cons a ws ih =>
    cases a with
    | recv =>
      have : 0 < poolSum WorkerPc.load ws := by simpa [poolSum, WorkerPc.load] using h
      obtain ⟨w, hw⟩ := ih this
      exact ⟨w + 1, by simpa using hw⟩
    | run c => exact ⟨0, Or.inl ⟨c, rfl⟩⟩
    | send => exact ⟨0, Or.inr rfl⟩

/-- A non-empty pool in which no worker owes a signal has its first worker
waiting on `queue`. -/
theorem poolSum_load_zero (ws : List WorkerPc) (h : poolSum WorkerPc.load ws = 0)
    (hl : 0 < ws.length) : ws.get? 0 = some WorkerPc.recv := by
  cases ws with
  | nil => simp at hl
  | cons a ws =>
    cases a with
    | recv => rfl
    | run c => simp [poolSum, WorkerPc.load] at h
    | send => simp [poolSum, WorkerPc.load] at h

/-- With at least one worker, the program can make a step as long as `main`
has not left its loop. -/
theorem progress (cfg : Config) (net : Network) (p : Process) (s : State)
    (hm : 1 ≤ cfg.MessageCount) (hs : 1 ≤ cfg.Sessions) (hi : Inv cfg net s)
    (hmain : s.main ≠ []) : ∃ s', Step cfg p s s' := by
  obtain ⟨hcap, hpool, ⟨m, part, pd, pq, hk, hle, hpart, hfd, hod, hdm⟩, hwork, hbuf, hwait⟩ := hi
  cases hmn : s.main with
  | nil => exact absurd hmn hmain
  | cons mo ms =>
    cases mo
    by_cases hb : 0 < s.doneBuf
    · exact ⟨_, Step.mainRecv s ms hmn hb⟩
    · have hb0 : s.doneBuf = 0 := by omega
      have hroom : s.doneBuf < s.doneCap := by omega
      rw [hmn] at hwait
      simp only [List.length_cons] at hwait
      by_cases hload : 0 < poolSum WorkerPc.load s.workers
      · obtain ⟨w, ⟨c, hw⟩ | hw⟩ := poolSum_load_pos s.workers hload
        · exact ⟨_, Step.sendMail s _ ms w c hmn hw⟩
        · exact ⟨_, Step.workerDone s _ ms w hmn hw hroom⟩
      · have hload0 : poolSum WorkerPc.load s.workers = 0 := by omega
        cases hpart with
        | idle =>
          have hlt : m < attempts cfg := by omega
          obtain ⟨k', hk'⟩ : ∃ k', attempts cfg - m = k' + 1 := ⟨attempts cfg - m - 1, by omega⟩
          rw [hk', List.range'_succ, List.flatMap_cons, kickBlock] at hk
          cases hd : Dial net cfg.Host m with
          | error err =>
            rw [hd] at hk
            exact ⟨_, Step.dial s _ ms false _ hmn hk⟩
          | ok c =>
            rw [hd] at hk
            exact ⟨_, Step.dial s _ ms true _ hmn hk⟩
        | log err => exact ⟨_, Step.logPrint s _ ms err _ hmn hk⟩
        | done => exact ⟨_, Step.kickDone s _ ms _ hmn hk hroom⟩
        | queue c =>
          have hw := poolSum_load_zero s.workers hload0 (by omega)
          exact ⟨_, Step.handOff s _ ms c _ 0 hmn hk hw⟩

/-- What holds when `main` has left its loop. -/
theorem Inv_finished (cfg : Config) (net : Network) (s : State) (hi : Inv cfg net s)
    (hmain : s.main = []) :
    signals s.trace = attempts cfg ∧ recvCount s.trace = attempts cfg ∧
    kickSignals s.trace = failedDials s.trace ∧ handOffCount s.trace = okDials s.trace ∧
    workerSignals s.trace = okDials s.trace ∧
    failedDials s.trace + okDials s.trace = attempts cfg ∧ s.doneBuf = 0 ∧ s.kick = [] := by
  obtain ⟨hcap, hpool, ⟨m, part, pd, pq, hk, hle, hpart, hfd, hod, hdm⟩, hwork, hbuf, hwait⟩ := hi
  rw [hmain] at hwait
  simp only [List.length_nil] at hwait
  have hsig := signals_eq s.trace
  have hpd : pd = 0 := by omega
  have hpq : pq = 0 := by omega
  have hm' : m = attempts cfg := by omega
  refine ⟨by omega, by omega, by omega, by omega, by omega, by omega, by omega, ?_⟩
  subst hpd hpq
  cases hpart
  rw [hk, hm']
  simp

/-- The program never stops before the first dial. -/
theorem Inv_first_dial (cfg : Config) (net : Network) (p : Process) (s : State)
    (hi : Inv cfg net s) (ha : 1 ≤ attempts cfg) (hstuck : ∀ s', ¬ Step cfg p s s') :
    1 ≤ failedDials s.trace + okDials s.trace := by
  obtain ⟨hcap, hpool, ⟨m, part, pd, pq, hk, hle, hpart, hfd, hod, hdm⟩, hwork, hbuf, hwait⟩ := hi
  by_contra hc
  have hm0 : m = 0 := by omega
  have hpd : pd = 0 := by omega
  have hpq : pq = 0 := by omega
  subst hm0 hpd hpq
  cases hpart
  obtain ⟨k', hk'⟩ : ∃ k', attempts cfg - 0 = k' + 1 := ⟨attempts cfg - 1, by omega⟩
  rw [hk', List.range'_succ, List.flatMap_cons, kickBlock] at hk
  have hlen : s.main.length = attempts cfg := by omega
  cases hmn : s.main with
  | nil => rw [hmn] at hlen; simp at hlen; omega
  | cons mo ms =>
    cases hd : Dial net cfg.Host 0 with
    | error err =>
      rw [hd] at hk
      exact hstuck _ (Step.dial s mo ms false _ hmn hk)
    | ok c =>
      rw [hd] at hk
      exact hstuck _ (Step.dial s mo ms true _ hmn hk)

theorem get?_set_cases (ws : List WorkerPc) (w w' : Nat) (x y : WorkerPc)
    (h : (ws.set w x).get? w' = some y) : y = x ∨ ws.get? w' = some y := by
  rw [List.get?_eq_getElem?, List.getElem?_set] at h
  split at h
  · split at h
    · injection h with h
      exact Or.inl h.symm
    · cases h
  · rw [List.get?_eq_getElem?]
    exact Or.inr h

theorem Handed_init (cfg : Config) (net : Network) (p : Process) :
    Handed cfg net p
      { kick := Kick cfg net, workers := Launch cfg, main := mainLoop cfg 0, doneBuf := 0
        doneCap := cfg.MessageCount.toNat, trace := [] } where
  suffix := ⟨[], rfl⟩
  running := by
    intro w c h
    simp only [Launch_eq] at h
    rw [List.get?_eq_getElem?, List.getElem?_replicate] at h
    split at h <;> cases h
  called := by
    intro w err h
    simp at h
  count := by
    simp only [Launch_eq]
    rw [poolSum_replicate_recv _ rfl]; rfl

theorem Handed_step (cfg : Config) (net : Network) (p : Process) (s s' : State)
    (hi : Handed cfg net p s) (hstep : Step cfg p s s') : Handed cfg net p s' := by
  obtain ⟨⟨pre, hpre⟩, hrun, hcall, hcount⟩ := hi
  cases hstep with
  | dial mo ms ok rest hm hkick =>
    refine ⟨⟨pre ++ [KickOp.dial ok], by rw [hpre, hkick]; simp⟩, hrun, ?_, ?_⟩
    · intro w err h
      simp only [List.mem_append, List.mem_singleton] at h
      rcases h with h | h
      · exact hcall w err h
      · cases h
    · simp only [sendMailCount, handOffCount, List.countP_append, List.countP_cons,
        List.countP_nil] at *
      simpa using hcount
  | logPrint mo ms err rest hm hkick =>
    exact ⟨⟨pre ++ [KickOp.logPrint err], by rw [hpre, hkick]; simp⟩, hrun, hcall, hcount⟩
  | kickDone mo ms rest hm hkick hb =>
    refine ⟨⟨pre ++ [KickOp.sendDone], by rw [hpre, hkick]; simp⟩, hrun, ?_, ?_⟩
    · intro w err h
      simp only [List.mem_append, List.mem_singleton] at h
      rcases h with h | h
      · exact hcall w err h
      · cases h
    · simp only [sendMailCount, handOffCount, List.countP_append, List.countP_cons,
        List.countP_nil] at *
      simpa using hcount
  | handOff mo ms c rest w hm hkick hw =>
    have hmem : KickOp.sendQueue c ∈ Kick cfg net := by rw [hpre, hkick]; simp
    have hset := poolSum_set WorkerPc.pending (WorkerPc.run c) WorkerPc.recv s.workers w hw
    simp only [WorkerPc.pending] at hset
    refine ⟨⟨pre ++ [KickOp.sendQueue c], by rw [hpre, hkick]; simp⟩, ?_, ?_, ?_⟩
    · intro w' c' h
      rcases get?_set_cases _ _ _ _ _ h with h | h
      · injection h with h
        rw [h]; exact hmem
      · exact hrun w' c' h
    · intro w' err h
      simp only [List.mem_append, List.mem_singleton] at h
      rcases h with h | h
      · exact hcall w' err h
      · cases h
    · simp only [sendMailCount, handOffCount, List.countP_append, List.countP_cons,
        List.countP_nil] at *
      simp
      omega
  | sendMail mo ms w c hm hw =>
    have hset := poolSum_set WorkerPc.pending WorkerPc.send (WorkerPc.run c) s.workers w hw
    simp only [WorkerPc.pending] at hset
    refine ⟨⟨pre, hpre⟩, ?_, ?_, ?_⟩
    · intro w' c' h
      rcases get?_set_cases _ _ _ _ _ h with h | h
      · cases h
      · exact hrun w' c' h
    · intro w' err h
      simp only [List.mem_append, List.mem_singleton] at h
      rcases h with h | h
      · exact hcall w' err h
      · injection h with _ h
        exact ⟨c, hrun w c hw, h⟩
    · simp only [sendMailCount, handOffCount, List.countP_append, List.countP_cons,
        List.countP_nil] at *
      simp
      omega
  | workerDone mo ms w hm hw hb =>
    have hset := poolSum_set WorkerPc.pending WorkerPc.recv WorkerPc.send s.workers w hw
    simp only [WorkerPc.pending] at hset
    refine ⟨⟨pre, hpre⟩, ?_, ?_, ?_⟩
    · intro w' c' h
      rcases get?_set_cases _ _ _ _ _ h with h | h
      · cases h
      · exact hrun w' c' h
    · intro w' err h
      simp only [List.mem_append, List.mem_singleton] at h
      rcases h with h | h
      · exact hcall w' err h
      · cases h
    · simp only [sendMailCount, handOffCount, List.countP_append, List.countP_cons,
        List.countP_nil] at *
      simp
      omega
  | mainRecv rest hm hb =>
    refine ⟨⟨pre, hpre⟩, hrun, ?_, ?_⟩
    · intro w' err h
      simp only [List.mem_append, List.mem_singleton] at h
      rcases h with h | h
      · exact hcall w' err h
      · cases h
    · simp only [sendMailCount, handOffCount, List.countP_append, List.countP_cons,
        List.countP_nil] at *
      simpa using hcount

theorem Handed_reachable (cfg : Config) (net : Network) (p : Process) (s0 s : State)
    (hm : 0 ≤ cfg.MessageCount) (h0 : main cfg net = some s0) (hr : Reachable cfg p s0 s) :
    Handed cfg net p s := by
  induction hr with
  | start =>
    rw [main_some cfg net hm] at h0
    injection h0 with h0
    subst h0
    exact Handed_init cfg net p
  | step _ hmem ih => exact Handed_step cfg net p _ _ ih ((mem_next_iff cfg p _ _).mp hmem)

theorem pending_le_load (ws : List WorkerPc) :
    poolSum WorkerPc.pending ws ≤ poolSum WorkerPc.load ws := by
  induction ws with
  | nil => simp [poolSum]
  | cons a ws ih =>
    simp only [poolSum, List.map_cons, List.sum_cons] at ih ⊢
    cases a <;> simp [WorkerPc.pending, WorkerPc.load] <;> omega

/-- When `main` has left its loop, `SendMail` has been called once for every
dial that succeeded. -/
theorem sendMailCount_finished (cfg : Config) (net : Network) (p : Process) (s : State)
    (hi : Inv cfg net s) (hh : Handed cfg net p s) (hmain : s.main = []) :
    sendMailCount s.trace = okDials s.trace := by
  obtain ⟨_, _, _, h4, h5, _, _, _⟩ := Inv_finished cfg net s hi hmain
  have hw := hi.work
  have hc := hh.count
  have hle := pending_le_load s.workers
  omega

/-- A transcript in which no command failed is the complete one, and the call
returned `nil`. -/
theorem Transcript_noFail (cfg : Config) (p : Process) (log : List Ev) (res : Option Err)
    (ht : Transcript cfg p log res) (hn : NoFail log) :
    res = none ∧
    log = Ev.cmd (greeting cfg) none ::
      (cycles cfg p (messagesPerConnection cfg) ++ [Ev.cmd Cmd.Quit none]) := by
  rcases ht with ⟨e, hr, hl⟩ | ⟨j, tail, hl, ht⟩
  · exact (noFail_no_failed log hn [] [] _ e (by simpa using hl)).elim
  · rcases ht with ⟨e, hr, hf, _⟩ | ⟨hj, ht⟩
    · obtain ⟨t, c, rfl, _⟩ := FailTail_split cfg p e tail hf
      exact (noFail_no_failed log hn (Ev.cmd (greeting cfg) none :: (cycles cfg p j ++ t)) [] c e
        (by simp [hl])).elim
    · subst hj ht
      cases res with
      | none => exact ⟨rfl, hl⟩
      | some e =>
        exact (noFail_no_failed log hn (Ev.cmd (greeting cfg) none ::
          cycles cfg p (messagesPerConnection cfg)) [] Cmd.Quit e (by simp [hl])).elim

/-! ## The claims on `SendMail` -/

/-- C1: for every `MessageSize = N > 0`, whatever the server does, each DATA
command of `SendMail` that went through is followed by the header block (which
ends with the blank line), then by the body, then by the closing of the DATA
writer.  The body is `N-1` texts `X`, the `k`-th of them followed by a text
`"\n"` exactly when `k` is a multiple of 80: it holds `N-1` characters `X`,
`(N-1)/80` line breaks and nothing else. -/
theorem C1_fill_body (cfg : Config) (p : Process) (srv : Server) (pre post : List Ev)
    (hN : 0 < cfg.MessageSize)
    (hlog : (SendMail cfg p { srv := srv, log := [] }).1.log =
      pre ++ Ev.cmd Cmd.Data none :: post) :
    ∃ body x rest,
      post = (headerLines cfg p).map Ev.write ++ body ++ Ev.cmd Cmd.Close x :: rest ∧
      body = ((List.range' 1 (cfg.MessageSize - 1).toNat).flatMap fun k =>
        "X" :: (if k % 80 = 0 then ["\n"] else [])).map Ev.write ∧
      ((written body).count 'X' : Int) = cfg.MessageSize - 1 ∧
      ((written body).count '\n' : Int) = (cfg.MessageSize - 1) / 80 ∧
      ((written body).length : Int) = (cfg.MessageSize - 1) + (cfg.MessageSize - 1) / 80 := by
  obtain ⟨x, rest, hpost⟩ :=
    Transcript_dataFollowed cfg p _ _ (SendMail_fresh cfg p srv).2 pre post hlog
  have hb : bodyChunks cfg = fillChunks 1 (cfg.MessageSize - 1).toNat := by
    have : cfg.MessageSize ≠ 0 := by omega
    simp [bodyChunks, this]
  obtain ⟨h1, h2, h3⟩ := written_fillChunks (cfg.MessageSize - 1).toNat
  refine ⟨(fillChunks 1 (cfg.MessageSize - 1).toNat).map Ev.write, x, rest, ?_, rfl, ?_, ?_, ?_⟩
  · rw [hpost, messageWrites, hb]; simp
  · rw [h1]; omega
  · rw [h2]; omega
  · rw [h3]; omega

/-- Witness of C1: the body of size 3 on a server that accepts everything. -/
theorem C1_fill_body_witness :
    ∃ body x rest,
      messageWrites { sampleConfig with MessageSize := 3 } sampleProcess ++
          [Ev.cmd Cmd.Close none, Ev.cmd Cmd.Quit none] =
        (headerLines { sampleConfig with MessageSize := 3 } sampleProcess).map Ev.write ++ body ++
          Ev.cmd Cmd.Close x :: rest ∧
      body = ((List.range' 1 ((3 : Int) - 1).toNat).flatMap fun k =>
        "X" :: (if k % 80 = 0 then ["\n"] else [])).map Ev.write ∧
      ((written body).count 'X' : Int) = 3 - 1 ∧
      ((written body).count '\n' : Int) = (3 - 1) / 80 ∧
      ((written body).length : Int) = (3 - 1) + (3 - 1) / 80 :=
  C1_fill_body { sampleConfig with MessageSize := 3 } sampleProcess okServer
    [Ev.cmd (Cmd.Hello "localhost") none, Ev.cmd (Cmd.Mail "from@example.com") none,
      Ev.cmd (Cmd.Rcpt "to@example.com") none]
    (messageWrites { sampleConfig with MessageSize := 3 } sampleProcess ++
      [Ev.cmd Cmd.Close none, Ev.cmd Cmd.Quit none])
    (by decide)
    (by rw [(SendMail_ok _ _ okServer (fun _ _ => rfl)).2]; rfl)

/-- C7: when `MessageSize = 0`, whatever the server does, each DATA command of
`SendMail` that went through is followed by the header block (which ends with
the blank line), then by exactly the four texts `La de da de da 1.` to
`La de da de da 4.`, each ending in a line break, in that order, then by the
closing of the DATA writer. -/
theorem C7_filler_body (cfg : Config) (p : Process) (srv : Server) (pre post : List Ev)
    (hN : cfg.MessageSize = 0)
    (hlog : (SendMail cfg p { srv := srv, log := [] }).1.log =
      pre ++ Ev.cmd Cmd.Data none :: post) :
    ∃ x rest,
      post = (headerLines cfg p).map Ev.write ++
        [Ev.write "La de da de da 1.\n", Ev.write "La de da de da 2.\n",
          Ev.write "La de da de da 3.\n", Ev.write "La de da de da 4.\n"] ++
        Ev.cmd Cmd.Close x :: rest := by
  obtain ⟨x, rest, hpost⟩ :=
    Transcript_dataFollowed cfg p _ _ (SendMail_fresh cfg p srv).2 pre post hlog
  refine ⟨x, rest, ?_⟩
  rw [hpost, messageWrites]
  simp [bodyChunks, hN]

/-- Witness of C7: the default configuration on a server that accepts
everything. -/
theorem C7_filler_body_witness :
    ∃ x rest,
      messageWrites sampleConfig sampleProcess ++
          [Ev.cmd Cmd.Close none, Ev.cmd Cmd.Quit none] =
        (headerLines sampleConfig sampleProcess).map Ev.write ++
          [Ev.write "La de da de da 1.\n", Ev.write "La de da de da 2.\n",
            Ev.write "La de da de da 3.\n", Ev.write "La de da de da 4.\n"] ++
          Ev.cmd Cmd.Close x :: rest :=
  C7_filler_body sampleConfig sampleProcess okServer
    [Ev.cmd (Cmd.Hello "localhost") none, Ev.cmd (Cmd.Mail "from@example.com") none,
      Ev.cmd (Cmd.Rcpt "to@example.com") none]
    (messageWrites sampleConfig sampleProcess ++ [Ev.cmd Cmd.Close none, Ev.cmd Cmd.Quit none])
    rfl
    (by rw [(SendMail_ok _ _ okServer (fun _ _ => rfl)).2]; rfl)

/-- C8: whatever the server does, each DATA command of `SendMail` that went
through is followed by exactly the five header lines `From: <Sender>`,
`To: <Recipient>`, `Date: ` with the start time, `Subject: from go-smtp-source`
and `Message-Id: <PID.COUNT@localhost>`, each ending in a line break, then by
one empty line, then by something that is not an empty line (the body and the
closing of the writer).  `PID` and `COUNT` are lower-case hexadecimal numerals
of the process id and of `MessageCount` with at least four digits, starting
with `0` only when they have exactly four. -/
theorem C8_headers (cfg : Config) (p : Process) (srv : Server) (pre post : List Ev)
    (hlog : (SendMail cfg p { srv := srv, log := [] }).1.log =
      pre ++ Ev.cmd Cmd.Data none :: post) :
    ∃ pid count x rest,
      post = [Ev.write ("From: <" ++ cfg.Sender ++ ">\n"),
          Ev.write ("To: <" ++ cfg.Recipient ++ ">\n"),
          Ev.write ("Date: " ++ p.myDate ++ "\n"),
          Ev.write "Subject: from go-smtp-source\n",
          Ev.write ("Message-Id: <" ++ pid ++ "." ++ count ++ "@localhost>\n"),
          Ev.write "\n"] ++ ((bodyChunks cfg).map Ev.write ++ Ev.cmd Cmd.Close x :: rest) ∧
      ((bodyChunks cfg).map Ev.write ++ Ev.cmd Cmd.Close x :: rest).head? ≠ some (Ev.write "\n") ∧
      (parseHex pid.data = some p.myPid ∧ 4 ≤ pid.length ∧
        (4 < pid.length → pid.data.head? ≠ some '0')) ∧
      ((parseHex count.data).map Int.ofNat = some cfg.MessageCount ∧ 4 ≤ count.length ∧
        (4 < count.length → count.data.head? ≠ some '0')) := by
  have htr := (SendMail_fresh cfg p srv).2
  obtain ⟨x, rest, hpost⟩ := Transcript_dataFollowed cfg p _ _ htr pre post hlog
  have hpos : 1 ≤ cfg.MessageCount :=
    Transcript_data_pos cfg p _ _ htr (by rw [hlog]; simp)
  refine ⟨fmtHex04 p.myPid, fmtHex04 cfg.MessageCount, x, rest, ?_, ?_, ?_, ?_⟩
  · rw [hpost, messageWrites]; simp [headerLines]
  · unfold bodyChunks
    by_cases h0 : cfg.MessageSize = 0
    · simp [h0]
    · simp only [h0, if_false]
      cases hn : (cfg.MessageSize - 1).toNat with
      | zero => simp [fillChunks]
      | succ n => simp [fillChunks, List.range'_succ]
  · simpa using fmtHex04_spec (p.myPid : Int) (by omega)
  · obtain ⟨h1, h2, h3⟩ := fmtHex04_spec cfg.MessageCount (by omega)
    refine ⟨?_, h2, h3⟩
    rw [h1]; simp; omega

/-- Witness of C8: the default configuration on a server that accepts
everything. -/
theorem C8_headers_witness :
    ∃ pid count x rest,
      messageWrites sampleConfig sampleProcess ++
          [Ev.cmd Cmd.Close none, Ev.cmd Cmd.Quit none] =
        [Ev.write ("From: <" ++ sampleConfig.Sender ++ ">\n"),
          Ev.write ("To: <" ++ sampleConfig.Recipient ++ ">\n"),
          Ev.write ("Date: " ++ sampleProcess.myDate ++ "\n"),
          Ev.write "Subject: from go-smtp-source\n",
          Ev.write ("Message-Id: <" ++ pid ++ "." ++ count ++ "@localhost>\n"),
          Ev.write "\n"] ++
          ((bodyChunks sampleConfig).map Ev.write ++ Ev.cmd Cmd.Close x :: rest) ∧
      ((bodyChunks sampleConfig).map Ev.write ++ Ev.cmd Cmd.Close x :: rest).head? ≠
        some (Ev.write "\n") ∧
      (parseHex pid.data = some sampleProcess.myPid ∧ 4 ≤ pid.length ∧
        (4 < pid.length → pid.data.head? ≠ some '0')) ∧
      ((parseHex count.data).map Int.ofNat = some sampleConfig.MessageCount ∧ 4 ≤ count.length ∧
        (4 < count.length → count.data.head? ≠ some '0')) :=
  C8_headers sampleConfig sampleProcess okServer
    [Ev.cmd (Cmd.Hello "localhost") none, Ev.cmd (Cmd.Mail "from@example.com") none,
      Ev.cmd (Cmd.Rcpt "to@example.com") none]
    (messageWrites sampleConfig sampleProcess ++ [Ev.cmd Cmd.Close none, Ev.cmd Cmd.Quit none])
    (by rw [(SendMail_ok _ _ okServer (fun _ _ => rfl)).2]; rfl)

/-- C5: if a command that `SendMail` issues on a fresh connection (STARTTLS,
HELLO, MAIL, RCPT, DATA, closing the DATA writer or QUIT) fails with the error
`e`, then `SendMail` returns exactly `e` and nothing at all follows that
command in the transcript; in particular no QUIT follows a failed command. -/
theorem C5_abort_on_failure (cfg : Config) (p : Process) (srv : Server) (pre post : List Ev)
    (c : Cmd) (x : Option Err) (e : Err)
    (hlog : (SendMail cfg p { srv := srv, log := [] }).1.log = pre ++ Ev.cmd c x :: post)
    (hfail : srv pre c = some e) :
    (SendMail cfg p { srv := srv, log := [] }).2 = some e ∧ post = [] ∧
      ∀ r, Ev.cmd Cmd.Quit r ∉ post := by
  obtain ⟨ha, ht⟩ := SendMail_fresh cfg p srv
  rw [hlog] at ha
  have hx : x = some e := by
    have := Answers_split srv pre post c x [] ha
    simpa [hfail] using this
  subst hx
  have key : (SendMail cfg p { srv := srv, log := [] }).2 = some e ∧ post = [] := by
    rcases Transcript_cases cfg p _ _ ht with ⟨_, hn⟩ | ⟨a, c0, e0, hr, hl, hn⟩
    · exact (noFail_no_failed _ hn pre post c e hlog).elim
    · rw [hl] at hlog
      obtain ⟨hp, he⟩ := failed_last a c0 e0 hn pre post c e hlog
      exact ⟨by rw [hr, he], hp⟩
  refine ⟨key.1, key.2, ?_⟩
  intro r
  rw [key.2]
  simp

/-- Witness of C5: a server that refuses the recipient; the transcript ends
with the failed RCPT. -/
theorem C5_abort_on_failure_witness :
    (SendMail sampleConfig sampleProcess { srv := rcptFailServer, log := [] }).2 =
        some "550 no such user" ∧
      ([] : List Ev) = [] ∧ ∀ r, Ev.cmd Cmd.Quit r ∉ ([] : List Ev) :=
  C5_abort_on_failure sampleConfig sampleProcess rcptFailServer
    [Ev.cmd (Cmd.Hello "localhost") none, Ev.cmd (Cmd.Mail "from@example.com") none] []
    (Cmd.Rcpt "to@example.com") (some "550 no such user") "550 no such user"
    (by
      have hs : sendLoop sampleConfig sampleProcess 0
          { srv := rcptFailServer, log := [Ev.cmd (Cmd.Hello "localhost") none] } =
          ({ srv := rcptFailServer,
             log := [Ev.cmd (Cmd.Hello "localhost") none,
               Ev.cmd (Cmd.Mail "from@example.com") none,
               Ev.cmd (Cmd.Rcpt "to@example.com") (some "550 no such user")] },
            some "550 no such user") := by
        rw [sendLoop]
        simp [Client.issue, rcptFailServer, sampleConfig]
      have hg : greet sampleConfig { srv := rcptFailServer, log := [] } =
          ({ srv := rcptFailServer, log := [Ev.cmd (Cmd.Hello "localhost") none] }, none) := rfl
      unfold SendMail
      rw [hg]
      simp only []
      rw [hs]
      rfl)
    rfl

/-- C6: for every configuration with `MessageCount >= 1`, when every command
succeeds `SendMail` returns `nil` and the commands it issued on the connection
are, in this order: one greeting (STARTTLS when `UseTLS`, otherwise HELLO with
the name `localhost`), then for each message MAIL, RCPT, DATA and the closing
of the DATA writer, and QUIT as the last command.  The number of messages is
`MessageCount` when `DontDisc`, otherwise 1, so at least one. -/
theorem C6_command_order (cfg : Config) (p : Process) (srv : Server)
    (hm : 1 ≤ cfg.MessageCount) (hok : ∀ hist c, srv hist c = none) :
    (SendMail cfg p { srv := srv, log := [] }).2 = none ∧
    commands (SendMail cfg p { srv := srv, log := [] }).1.log =
      (if cfg.UseTLS then Cmd.StartTLS cfg.tlsConfig else Cmd.Hello "localhost") ::
        ((List.replicate (if cfg.DontDisc then cfg.MessageCount.toNat else 1)
            [Cmd.Mail cfg.Sender, Cmd.Rcpt cfg.Recipient, Cmd.Data, Cmd.Close]).flatten ++
          [Cmd.Quit]) ∧
    1 ≤ (if cfg.DontDisc then cfg.MessageCount.toNat else 1) := by
  obtain ⟨hr, hl⟩ := SendMail_ok cfg p srv hok
  have hk : messagesPerConnection cfg = if cfg.DontDisc then cfg.MessageCount.toNat else 1 := by
    unfold messagesPerConnection loopBound
    split
    · rfl
    · omega
  refine ⟨hr, ?_, ?_⟩
  · rw [hl, ← hk]
    have := commands_cycles cfg p (messagesPerConnection cfg)
    simp only [commands, List.filterMap_cons, List.filterMap_append, List.filterMap_nil,
      cycleCommands] at this ⊢
    rw [this]; rfl
  · split <;> omega

/-- Witness of C6: three messages on one connection with STARTTLS. -/
theorem C6_command_order_witness :
    (SendMail { sampleConfig with MessageCount := 3, DontDisc := true, UseTLS := true }
        sampleProcess { srv := okServer, log := [] }).2 = none ∧
    commands (SendMail { sampleConfig with MessageCount := 3, DontDisc := true, UseTLS := true }
        sampleProcess { srv := okServer, log := [] }).1.log =
      (if true then Cmd.StartTLS { InsecureSkipVerify := true } else Cmd.Hello "localhost") ::
        ((List.replicate (if true then ((3 : Int)).toNat else 1)
            [Cmd.Mail "from@example.com", Cmd.Rcpt "to@example.com", Cmd.Data,
              Cmd.Close]).flatten ++
          [Cmd.Quit]) ∧
    1 ≤ (if true then ((3 : Int)).toNat else 1) :=
  C6_command_order { sampleConfig with MessageCount := 3, DontDisc := true, UseTLS := true }
    sampleProcess okServer (by decide) (fun _ _ => rfl)

/-! ## The claims on `Kick` and `SendMail` together -/

/-- C2, counterexample: with `-m 2 -s 0` and a first dial that succeeds,
`Launch` starts no worker; `Kick` dials once and stays at `queue <- c`, the
program cannot make a step, and no state it can reach holds more than one
dial, although `MessageCount = 2`. -/
theorem C2_counterexample :
    main twoNoSession sampleNetwork = some twoNoSessionStart ∧
      Reachable twoNoSession sampleProcess twoNoSessionStart twoNoSessionStuck ∧
      next twoNoSession sampleProcess twoNoSessionStuck = [] ∧
      failedDials twoNoSessionStuck.trace + okDials twoNoSessionStuck.trace = 1 ∧
      (∀ t, Reachable twoNoSession sampleProcess twoNoSessionStart t →
        failedDials t.trace + okDials t.trace ≤ 1) ∧
      (∃ c rest, twoNoSessionStuck.kick = KickOp.sendQueue c :: rest ∧ dialCount rest = 1) ∧
      twoNoSession.MessageCount = 2 ∧ twoNoSession.DontDisc = false := by
  have hk : Kick twoNoSession sampleNetwork =
      [KickOp.dial true, KickOp.sendQueue { srv := okServer, log := [] }, KickOp.dial false,
        KickOp.logPrint "connection refused", KickOp.sendDone] := by
    rw [Kick_eq]
    simp [attempts, twoNoSession, sampleConfig, kickBlock, Dial, sampleNetwork, List.range'_succ]
  have hw : Launch twoNoSession = [] := by
    rw [Launch_eq]; rfl
  have hml : mainLoop twoNoSession 0 = [MainOp.recvDone, MainOp.recvDone] := by
    rw [mainLoop]
    simp only [twoNoSession, sampleConfig]
    rw [mainLoop]
    simp only []
    rw [mainLoop]
    simp
  have h0 : main twoNoSession sampleNetwork = some twoNoSessionStart := by
    rw [main_some twoNoSession sampleNetwork (by decide), hk, hw, hml]
    rfl
  have hn0 : next twoNoSession sampleProcess twoNoSessionStart = [twoNoSessionStuck] := by
    simp [next, kickSteps, workerSteps, mainSteps, twoNoSessionStart, twoNoSessionStuck]
  have hn1 : next twoNoSession sampleProcess twoNoSessionStuck = [] := by
    simp [next, kickSteps, handOffs, workerSteps, mainSteps, twoNoSessionStuck]
  refine ⟨h0, Reachable.step Reachable.start (by rw [hn0]; simp), hn1, rfl, ?_,
    ⟨_, _, rfl, rfl⟩, rfl, rfl⟩
  intro t ht
  have key : t = twoNoSessionStart ∨ t = twoNoSessionStuck := by
    induction ht with
    | start => exact Or.inl rfl
    | step _ hmem ih =>
      rcases ih with h | h
      · rw [h, hn0] at hmem
        exact Or.inr (List.mem_singleton.mp hmem)
      · rw [h, hn1] at hmem
        cases hmem
  rcases key with h | h <;> rw [h] <;> decide

/-- C2, as amended: for every `MessageCount >= 1` and `Sessions >= 1` with
`DontDisc = false`.  The loop of `Kick` calls `Dial` exactly `MessageCount`
times whatever the outcome of each dial, and on each client it hands over, when
no command fails, `SendMail` returns `nil` after the greeting, one
MAIL/RCPT/DATA/close cycle (one message sent) and QUIT.  In the running
program the number of dials never exceeds `MessageCount`, every step lowers
`runMeasure` so every run ends, every call of `SendMail` a worker makes is on a
client handed over by `Kick`, and when no step is left `main` has left its
loop, exactly `MessageCount` dials were made and `SendMail` was called once for
each dial that succeeded. -/
theorem C2_one_message_per_connection (cfg : Config) (p : Process) (net : Network)
    (hm : 1 ≤ cfg.MessageCount) (hs : 1 ≤ cfg.Sessions) (hd : cfg.DontDisc = false) :
    (dialCount (Kick cfg net) : Int) = cfg.MessageCount ∧
    (∀ c, KickOp.sendQueue c ∈ Kick cfg net → NoFail (SendMail cfg p c).1.log →
      (SendMail cfg p c).2 = none ∧
      commands (SendMail cfg p c).1.log =
        [greeting cfg, Cmd.Mail cfg.Sender, Cmd.Rcpt cfg.Recipient, Cmd.Data, Cmd.Close,
          Cmd.Quit] ∧
      mailCount (SendMail cfg p c).1.log = 1 ∧ sentCount (SendMail cfg p c).1.log = 1) ∧
    (∀ c, KickOp.sendQueue c ∈ Kick cfg net → (∀ hist cmd, c.srv hist cmd = none) →
      NoFail (SendMail cfg p c).1.log) ∧
    ∃ s0, main cfg net = some s0 ∧ ∀ s, Reachable cfg p s0 s →
      ((failedDials s.trace + okDials s.trace : Nat) : Int) ≤ cfg.MessageCount ∧
      (∀ s', s' ∈ next cfg p s → runMeasure s' < runMeasure s) ∧
      (∀ w err, Obs.sendMail w err ∈ s.trace →
        ∃ c, KickOp.sendQueue c ∈ Kick cfg net ∧ err = (SendMail cfg p c).2) ∧
      (next cfg p s = [] →
        s.main = [] ∧
        ((failedDials s.trace + okDials s.trace : Nat) : Int) = cfg.MessageCount ∧
        sendMailCount s.trace = okDials s.trace) := by
  have hk : messagesPerConnection cfg = 1 := by
    unfold messagesPerConnection loopBound
    rw [hd]; simp; omega
  have hat : attempts cfg = cfg.MessageCount.toNat := by simp [attempts, hd]
  refine ⟨?_, ?_, ?_, _, main_some cfg net (by omega), ?_⟩
  · rw [dialCount_Kick, attempts, hd]; simp; omega
  · intro c hc hok
    obtain ⟨srv, rfl⟩ := Kick_handle_fresh cfg net c hc
    obtain ⟨_, ht⟩ := SendMail_fresh cfg p srv
    obtain ⟨hr, hl⟩ := Transcript_noFail cfg p _ _ ht hok
    rw [hk] at hl
    have hcm := commands_cycles cfg p 1
    have hcn := counts_cycles cfg p 1
    have hg := greeting_counts cfg none
    refine ⟨hr, ?_, ?_, ?_⟩
    · rw [hl]
      simp only [commands, List.filterMap_cons, List.filterMap_append, List.filterMap_nil,
        cycleCommands] at hcm ⊢
      rw [hcm]; rfl
    · have : mailCount (SendMail cfg p { srv := srv, log := [] }).1.log =
          mailCount [Ev.cmd (greeting cfg) none] +
            (mailCount (cycles cfg p 1) + mailCount [Ev.cmd Cmd.Quit none]) := by
        rw [hl, ← mailCount_append, ← mailCount_append]; rfl
      rw [this, hcn.1, hg.1]; rfl
    · have : sentCount (SendMail cfg p { srv := srv, log := [] }).1.log =
          sentCount [Ev.cmd (greeting cfg) none] +
            (sentCount (cycles cfg p 1) + sentCount [Ev.cmd Cmd.Quit none]) := by
        rw [hl, ← sentCount_append, ← sentCount_append]; rfl
      rw [this, hcn.2, hg.2]; rfl
  · intro c hc hok
    obtain ⟨srv, rfl⟩ := Kick_handle_fresh cfg net c hc
    exact Answers_noFail srv hok _ _ (SendMail_fresh cfg p srv).1
  · intro s hr
    have hi := Inv_reachable cfg net p _ s hm (main_some cfg net (by omega)) hr
    have hh := Handed_reachable cfg net p _ s (by omega) (main_some cfg net (by omega)) hr
    refine ⟨?_, ?_, hh.called, ?_⟩
    · obtain ⟨_, _, ⟨m, part, pd, pq, _, hle, _, hfd, hod, hdm⟩, _, _, _⟩ := hi
      omega
    · intro s' hs'
      exact runMeasure_step cfg p s s' ((mem_next_iff cfg p s s').mp hs')
    · intro hnext
      have hmain : s.main = [] := by
        by_contra hne
        obtain ⟨s', hstep⟩ := progress cfg net p s hm hs hi hne
        have := (mem_next_iff cfg p s s').mpr hstep
        rw [hnext] at this
        simp at this
      obtain ⟨_, _, _, _, _, h6, _, _⟩ := Inv_finished cfg net s hi hmain
      exact ⟨hmain, by omega, sendMailCount_finished cfg net p s hi hh hmain⟩

/-- Witness of C2 as amended: three messages over two sessions, every second
dial refused. -/
theorem C2_one_message_per_connection_witness :
    (dialCount (Kick threeMessages sampleNetwork) : Int) = threeMessages.MessageCount ∧
    (∀ c, KickOp.sendQueue c ∈ Kick threeMessages sampleNetwork →
      NoFail (SendMail threeMessages sampleProcess c).1.log →
      (SendMail threeMessages sampleProcess c).2 = none ∧
      commands (SendMail threeMessages sampleProcess c).1.log =
        [greeting threeMessages, Cmd.Mail threeMessages.Sender,
          Cmd.Rcpt threeMessages.Recipient, Cmd.Data, Cmd.Close, Cmd.Quit] ∧
      mailCount (SendMail threeMessages sampleProcess c).1.log = 1 ∧
      sentCount (SendMail threeMessages sampleProcess c).1.log = 1) ∧
    (∀ c, KickOp.sendQueue c ∈ Kick threeMessages sampleNetwork →
      (∀ hist cmd, c.srv hist cmd = none) →
      NoFail (SendMail threeMessages sampleProcess c).1.log) ∧
    ∃ s0, main threeMessages sampleNetwork = some s0 ∧
      ∀ s, Reachable threeMessages sampleProcess s0 s →
        ((failedDials s.trace + okDials s.trace : Nat) : Int) ≤ threeMessages.MessageCount ∧
        (∀ s', s' ∈ next threeMessages sampleProcess s → runMeasure s' < runMeasure s) ∧
        (∀ w err, Obs.sendMail w err ∈ s.trace →
          ∃ c, KickOp.sendQueue c ∈ Kick threeMessages sampleNetwork ∧
            err = (SendMail threeMessages sampleProcess c).2) ∧
        (next threeMessages sampleProcess s = [] →
          s.main = [] ∧
          ((failedDials s.trace + okDials s.trace : Nat) : Int) = threeMessages.MessageCount ∧
          sendMailCount s.trace = okDials s.trace) :=
  C2_one_message_per_connection threeMessages sampleProcess sampleNetwork (by decide)
    (by decide) rfl

/-- C3: for every `MessageCount >= 1` with `DontDisc = true`, `Kick` calls
`Dial` exactly once, and on the connection it hands over `SendMail` starts at
most `MessageCount` messages and sends no more than it starts, whatever the
server does, with nothing after QUIT; when every command succeeds it returns
`nil` after sending exactly `MessageCount` messages one after the other,
followed by QUIT.  In the running program the number of dials never exceeds 1
and is exactly 1 in every state from which no step is left. -/
theorem C3_one_connection_for_all (cfg : Config) (p : Process) (net : Network)
    (hm : 1 ≤ cfg.MessageCount) (hd : cfg.DontDisc = true) :
    dialCount (Kick cfg net) = 1 ∧
    (∀ c, KickOp.sendQueue c ∈ Kick cfg net →
      ((mailCount (SendMail cfg p c).1.log : Int) ≤ cfg.MessageCount ∧
        sentCount (SendMail cfg p c).1.log ≤ mailCount (SendMail cfg p c).1.log ∧
        ∀ pre r post, (SendMail cfg p c).1.log = pre ++ Ev.cmd Cmd.Quit r :: post → post = []) ∧
      ((∀ hist cmd, c.srv hist cmd = none) →
        (SendMail cfg p c).2 = none ∧
        (sentCount (SendMail cfg p c).1.log : Int) = cfg.MessageCount ∧
        commands (SendMail cfg p c).1.log =
          greeting cfg ::
            ((List.replicate cfg.MessageCount.toNat
                [Cmd.Mail cfg.Sender, Cmd.Rcpt cfg.Recipient, Cmd.Data, Cmd.Close]).flatten ++
              [Cmd.Quit]))) ∧
    ∃ s0, main cfg net = some s0 ∧ ∀ s, Reachable cfg p s0 s →
      failedDials s.trace + okDials s.trace ≤ 1 ∧
      (next cfg p s = [] → failedDials s.trace + okDials s.trace = 1) := by
  have hk : messagesPerConnection cfg = cfg.MessageCount.toNat := by
    unfold messagesPerConnection loopBound
    rw [hd]; simp
  have hat : attempts cfg = 1 := by simp [attempts, hd]
  refine ⟨?_, ?_, _, main_some cfg net (by omega), ?_⟩
  · rw [dialCount_Kick, attempts, hd]; simp
  rotate_left
  · intro s hr
    have hi := Inv_reachable cfg net p _ s hm (main_some cfg net (by omega)) hr
    have hle : failedDials s.trace + okDials s.trace ≤ 1 := by
      obtain ⟨_, _, ⟨m, part, pd, pq, _, hle, _, hfd, hod, hdm⟩, _, _, _⟩ := hi
      omega
    refine ⟨hle, ?_⟩
    intro hnext
    have := Inv_first_dial cfg net p s hi (by omega) (by
      intro s' hstep
      have := (mem_next_iff cfg p s s').mpr hstep
      rw [hnext] at this
      simp at this)
    omega
  · intro c hc
    obtain ⟨srv, rfl⟩ := Kick_handle_fresh cfg net c hc
    obtain ⟨_, ht⟩ := SendMail_fresh cfg p srv
    obtain ⟨h1, h2⟩ := Transcript_counts cfg p _ _ ht
    refine ⟨⟨?_, h2, ?_⟩, ?_⟩
    · rw [hk] at h1; omega
    · intro pre r post hlog
      exact Transcript_quit_last cfg p _ _ ht pre post r hlog
    · intro hok
      obtain ⟨hr, hl⟩ := SendMail_ok cfg p srv hok
      rw [hk] at hl
      have hcm := commands_cycles cfg p cfg.MessageCount.toNat
      have hcn := counts_cycles cfg p cfg.MessageCount.toNat
      have hg := greeting_counts cfg none
      refine ⟨hr, ?_, ?_⟩
      · have : sentCount (SendMail cfg p { srv := srv, log := [] }).1.log =
            sentCount [Ev.cmd (greeting cfg) none] +
              (sentCount (cycles cfg p cfg.MessageCount.toNat) +
                sentCount [Ev.cmd Cmd.Quit none]) := by
          rw [hl, ← sentCount_append, ← sentCount_append]; rfl
        rw [this, hcn.2, hg.2]
        have : sentCount [Ev.cmd Cmd.Quit none] = 0 := rfl
        rw [this]; omega
      · rw [hl]
        simp only [commands, List.filterMap_cons, List.filterMap_append, List.filterMap_nil,
          cycleCommands] at hcm ⊢
        rw [hcm]

/-- Witness of C3: three messages over one connection. -/
theorem C3_one_connection_for_all_witness :
    dialCount (Kick { sampleConfig with MessageCount := 3, DontDisc := true } sampleNetwork) = 1 ∧
    (∀ c, KickOp.sendQueue c ∈
        Kick { sampleConfig with MessageCount := 3, DontDisc := true } sampleNetwork →
      ((mailCount (SendMail { sampleConfig with MessageCount := 3, DontDisc := true }
            sampleProcess c).1.log : Int) ≤ 3 ∧
        sentCount (SendMail { sampleConfig with MessageCount := 3, DontDisc := true }
            sampleProcess c).1.log ≤
          mailCount (SendMail { sampleConfig with MessageCount := 3, DontDisc := true }
            sampleProcess c).1.log ∧
        ∀ pre r post, (SendMail { sampleConfig with MessageCount := 3, DontDisc := true }
            sampleProcess c).1.log = pre ++ Ev.cmd Cmd.Quit r :: post → post = []) ∧
      ((∀ hist cmd, c.srv hist cmd = none) →
        (SendMail { sampleConfig with MessageCount := 3, DontDisc := true }
            sampleProcess c).2 = none ∧
        (sentCount (SendMail { sampleConfig with MessageCount := 3, DontDisc := true }
            sampleProcess c).1.log : Int) = 3 ∧
        commands (SendMail { sampleConfig with MessageCount := 3, DontDisc := true }
            sampleProcess c).1.log =
          greeting { sampleConfig with MessageCount := 3, DontDisc := true } ::
            ((List.replicate ((3 : Int)).toNat
                [Cmd.Mail "from@example.com", Cmd.Rcpt "to@example.com", Cmd.Data,
                  Cmd.Close]).flatten ++
              [Cmd.Quit]))) ∧
    ∃ s0, main { sampleConfig with MessageCount := 3, DontDisc := true } sampleNetwork =
        some s0 ∧
      ∀ s, Reachable { sampleConfig with MessageCount := 3, DontDisc := true } sampleProcess
          s0 s →
        failedDials s.trace + okDials s.trace ≤ 1 ∧
        (next { sampleConfig with MessageCount := 3, DontDisc := true } sampleProcess s = [] →
          failedDials s.trace + okDials s.trace = 1) :=
  C3_one_connection_for_all { sampleConfig with MessageCount := 3, DontDisc := true }
    sampleProcess sampleNetwork (by decide) rfl

/-! ## The claims on `Parse` and on the channels of `main` -/

/-- C9, counterexample: for the command line `-m 0 -s 0 mx`, `Parse` produces a
configuration with `MessageCount = 0` and `Sessions = 0`. -/
theorem C9_counterexample :
    ∃ cfg,
      Parse
          { m := some 0, l := none, s := some 0, f := none, t := none, tls := none, d := none
            args := ["mx"] } = Except.ok cfg ∧
      ¬ (1 ≤ cfg.MessageCount ∧ 1 ≤ cfg.Sessions) :=
  ⟨_, rfl, by decide⟩

/-- C9, as amended: `Parse` stores the values given to `-m` and `-s` as they
are, and 1 for a flag that is not given; so the configuration it produces has
`MessageCount >= 1` and `Sessions >= 1` exactly when no value below 1 is given
to `-m` or `-s`. -/
theorem C9_parse_keeps_flag_values (cl : CommandLine) (cfg : Config)
    (h : Parse cl = Except.ok cfg) :
    cfg.MessageCount = flagValue cl.m 1 ∧ cfg.Sessions = flagValue cl.s 1 ∧
    ((1 ≤ cfg.MessageCount ∧ 1 ≤ cfg.Sessions) ↔
      ((∀ v, cl.m = some v → 1 ≤ v) ∧ (∀ v, cl.s = some v → 1 ≤ v))) := by
  unfold Parse at h
  simp only [] at h
  split at h
  · cases h
  · injection h with h
    subst h
    refine ⟨rfl, rfl, ?_⟩
    show (1 ≤ flagValue cl.m 1 ∧ 1 ≤ flagValue cl.s 1) ↔ _
    cases cl.m <;> cases cl.s <;> simp [flagValue]

/-- Witness of C9 as amended: the command line `-m 5 mx`. -/
theorem C9_parse_keeps_flag_values_witness :
    (5 : Int) = flagValue (some 5) 1 ∧ (1 : Int) = flagValue none 1 ∧
    ((1 ≤ (5 : Int) ∧ 1 ≤ (1 : Int)) ↔
      ((∀ v, some (5 : Int) = some v → 1 ≤ v) ∧ (∀ v, (none : Option Int) = some v → 1 ≤ v))) :=
  C9_parse_keeps_flag_values
    { m := some 5, l := none, s := none, f := none, t := none, tls := none, d := none,
      args := ["mx"] }
    { sampleConfig with MessageCount := 5 } rfl

/-- C10, counterexample: with the default `MessageCount = 1` the channel `done`
has capacity 1, not 0. -/
theorem C10_counterexample :
    ∃ chans, mainChans sampleConfig = some chans ∧ chans.done ≠ 0 :=
  ⟨{ queue := 0, done := 1 }, rfl, by decide⟩

/-- C10, as amended: `queue` is unbuffered (capacity 0) for every
configuration; `done` is buffered with capacity `MessageCount`, so it is
unbuffered only when `MessageCount = 0`; for a negative `MessageCount` the
creation of `done` panics.  The program starts with an empty `done` of that
capacity. -/
theorem C10_channel_capacities (cfg : Config) :
    mainChans cfg =
      (if cfg.MessageCount < 0 then none
        else some { queue := 0, done := cfg.MessageCount.toNat }) ∧
    (∀ chans, mainChans cfg = some chans →
      chans.queue = 0 ∧ (chans.done : Int) = cfg.MessageCount ∧
        (chans.done = 0 ↔ cfg.MessageCount = 0)) ∧
    (∀ net s0, main cfg net = some s0 →
      (s0.doneCap : Int) = cfg.MessageCount ∧ s0.doneBuf = 0) := by
  have h1 : mainChans cfg =
      (if cfg.MessageCount < 0 then none
        else some { queue := 0, done := cfg.MessageCount.toNat }) := by
    unfold mainChans makeChan
    by_cases h : cfg.MessageCount < 0
    · simp [h]
    · simp [h]
  refine ⟨h1, ?_, ?_⟩
  · intro chans hc
    rw [h1] at hc
    split at hc
    · cases hc
    · injection hc with hc
      subst hc
      simp only []
      refine ⟨trivial, ?_, ?_⟩ <;> omega
  · intro net s0 hs
    unfold main at hs
    rw [h1] at hs
    by_cases h : cfg.MessageCount < 0
    · simp [h] at hs
    · simp only [h, if_false] at hs
      injection hs with hs
      subst hs
      refine ⟨?_, rfl⟩
      show ((cfg.MessageCount.toNat : Nat) : Int) = cfg.MessageCount
      omega

/-! ## The claim on completion signals -/

/-- C4, counterexample: with `-s 0` (one message, the dial succeeds) `Launch`
starts no worker; after the dial `Kick` stays at `queue <- c` and `main` at
`<-done`, the program cannot make a step, and no completion signal was
produced although `main` waits for one. -/
theorem C4_counterexample :
    ∃ s0 s, main noSession sampleNetwork = some s0 ∧
      Reachable noSession sampleProcess s0 s ∧ next noSession sampleProcess s = [] ∧
      okDials s.trace = 1 ∧ (∃ c, s.kick = [KickOp.sendQueue c]) ∧ handOffCount s.trace = 0 ∧
      signals s.trace = 0 ∧ s.main = [MainOp.recvDone] ∧
      (mainLoop noSession 0).length = 1 := by
  have hk : Kick noSession sampleNetwork =
      [KickOp.dial true, KickOp.sendQueue { srv := okServer, log := [] }] := by
    rw [Kick_eq]
    simp [attempts, noSession, sampleConfig, kickBlock, Dial, sampleNetwork]
  have hw : Launch noSession = [] := by
    rw [Launch_eq]; rfl
  have hml : mainLoop noSession 0 = [MainOp.recvDone] := by
    rw [mainLoop]
    simp only [noSession, sampleConfig]
    rw [mainLoop]
    simp
  have h0 := main_some noSession sampleNetwork (by decide)
  rw [hk, hw, hml] at h0
  refine ⟨_,
    { kick := [KickOp.sendQueue { srv := okServer, log := [] }]
      workers := []
      main := [MainOp.recvDone]
      doneBuf := 0
      doneCap := (noSession.MessageCount).toNat
      trace := [Obs.dial true] },
    h0, ?_, ?_, rfl, ⟨_, rfl⟩, rfl, rfl, rfl, by rw [hml]; rfl⟩
  · refine Reachable.step Reachable.start ?_
    rw [mem_next_iff]
    exact Step.dial _ MainOp.recvDone [] true _ rfl rfl
  · simp [next, kickSteps, handOffs, workerSteps, mainSteps]

/-- C4, as amended: for every `MessageCount >= 1`, `Sessions >= 1`, either
value of `DontDisc` and every pattern of dial outcomes.  `Kick` does, for each
dial attempt, either dial (failed), log, one send on `done`, or dial (ok), one
send on `queue`.  `main` waits for 1 signal if `DontDisc`, else for
`MessageCount`.  In every state the program can reach, the signals produced
do not exceed that number, `Kick` has sent no more signals than dials failed,
and workers no more than clients were handed over, which are no more than
dials succeeded; every step lowers `runMeasure`, so every run ends; and when
no step is left, `main` has left its loop having received all signals it
waited for, the signals produced are exactly that number, one from `Kick` per
failed dial and one from a worker per successful dial, whatever `SendMail`
returned. -/
theorem C4_completion_signals (cfg : Config) (p : Process) (net : Network)
    (hm : 1 ≤ cfg.MessageCount) (hs : 1 ≤ cfg.Sessions) :
    Kick cfg net =
      (List.range' 0 (if cfg.DontDisc then 1 else cfg.MessageCount.toNat)).flatMap (fun n =>
        match Dial net cfg.Host n with
        | Except.error err => [KickOp.dial false, KickOp.logPrint err, KickOp.sendDone]
        | Except.ok c => [KickOp.dial true, KickOp.sendQueue c]) ∧
    (mainLoop cfg 0).length = (if cfg.DontDisc then 1 else cfg.MessageCount.toNat) ∧
    ∃ s0, main cfg net = some s0 ∧ ∀ s, Reachable cfg p s0 s →
      signals s.trace ≤ (mainLoop cfg 0).length ∧
      kickSignals s.trace ≤ failedDials s.trace ∧
      workerSignals s.trace ≤ handOffCount s.trace ∧
      handOffCount s.trace ≤ okDials s.trace ∧
      (∀ s', s' ∈ next cfg p s → runMeasure s' < runMeasure s) ∧
      (next cfg p s = [] →
        s.main = [] ∧ recvCount s.trace = (mainLoop cfg 0).length ∧
        signals s.trace = (mainLoop cfg 0).length ∧
        kickSignals s.trace = failedDials s.trace ∧
        handOffCount s.trace = okDials s.trace ∧
        workerSignals s.trace = okDials s.trace ∧
        failedDials s.trace + okDials s.trace = (mainLoop cfg 0).length) := by
  have hlen := mainLoop_length_zero cfg hm
  refine ⟨Kick_eq cfg net, by rw [hlen]; rfl, _, main_some cfg net (by omega), ?_⟩
  intro s hr
  have hi := Inv_reachable cfg net p _ s hm (main_some cfg net (by omega)) hr
  have hsig := signals_eq s.trace
  rw [hlen]
  refine ⟨?_, ?_, ?_, ?_, ?_, ?_⟩
  · obtain ⟨_, _, ⟨m, part, pd, pq, _, hle, _, hfd, hod, hdm⟩, hwork, _, _⟩ := hi
    omega
  · obtain ⟨_, _, ⟨m, part, pd, pq, _, hle, _, hfd, hod, hdm⟩, hwork, _, _⟩ := hi
    omega
  · obtain ⟨_, _, ⟨m, part, pd, pq, _, hle, _, hfd, hod, hdm⟩, hwork, _, _⟩ := hi
    omega
  · obtain ⟨_, _, ⟨m, part, pd, pq, _, hle, _, hfd, hod, hdm⟩, hwork, _, _⟩ := hi
    omega
  · intro s' hs'
    exact runMeasure_step cfg p s s' ((mem_next_iff cfg p s s').mp hs')
  · intro hnext
    have hmain : s.main = [] := by
      by_contra hne
      obtain ⟨s', hstep⟩ := progress cfg net p s hm hs hi hne
      have := (mem_next_iff cfg p s s').mpr hstep
      rw [hnext] at this
      simp at this
    obtain ⟨h1, h2, h3, h4, h5, h6, _, _⟩ := Inv_finished cfg net s hi hmain
    exact ⟨hmain, h2, h1, h3, h4, h5, h6⟩

/-- Witness of C4 as amended: three messages over two sessions, every second
dial refused. -/
theorem C4_completion_signals_witness :
    Kick threeMessages sampleNetwork =
      (List.range' 0 (if threeMessages.DontDisc then 1
          else threeMessages.MessageCount.toNat)).flatMap (fun n =>
        match Dial sampleNetwork threeMessages.Host n with
        | Except.error err => [KickOp.dial false, KickOp.logPrint err, KickOp.sendDone]
        | Except.ok c => [KickOp.dial true, KickOp.sendQueue c]) ∧
    (mainLoop threeMessages 0).length =
      (if threeMessages.DontDisc then 1 else threeMessages.MessageCount.toNat) ∧
    ∃ s0, main threeMessages sampleNetwork = some s0 ∧
      ∀ s, Reachable threeMessages sampleProcess s0 s →
        signals s.trace ≤ (mainLoop threeMessages 0).length ∧
        kickSignals s.trace ≤ failedDials s.trace ∧
        workerSignals s.trace ≤ handOffCount s.trace ∧
        handOffCount s.trace ≤ okDials s.trace ∧
        (∀ s', s' ∈ next threeMessages sampleProcess s → runMeasure s' < runMeasure s) ∧
        (next threeMessages sampleProcess s = [] →
          s.main = [] ∧ recvCount s.trace = (mainLoop threeMessages 0).length ∧
          signals s.trace = (mainLoop threeMessages 0).length ∧
          kickSignals s.trace = failedDials s.trace ∧
          handOffCount s.trace = okDials s.trace ∧
          workerSignals s.trace = okDials s.trace ∧
          failedDials s.trace + okDials s.trace = (mainLoop threeMessages 0).length) :=
  C4_completion_signals threeMessages sampleProcess sampleNetwork (by decide) (by decide)

end SmtpSource
